import Mathlib

/-!
SM4 block cipher: direct engine (`sm4.cpp`) and table-accelerated engine (`ttable.cpp`).

Shallow embedding.  A `uint32_t` is a natural number below `2 ^ 32`, a `uint8_t` a natural
number below `2 ^ 8`; every operation that can overflow its C type is followed by an explicit
reduction.  A C array is a `List Nat`; a read `a[i]` is `a.getD i 0`, a write `a[i] = v` is
`a.set i v`.  A `for` loop over `0 .. n-1` is a left fold over `List.range n`.  A function that
writes its result through a pointer argument returns the new content of that argument.
-/

/-- Image of `memcpy(dst, src, n * sizeof(uint32_t))`: the first `n` words of `dst` are replaced by
the first `n` words of `src`. -/
def memcpy (dst src : List Nat) (n : Nat) : List Nat :=
  src.take n ++ dst.drop n

namespace SM4

/-- Table `SM4_SBOX` of `sm4.cpp`. -/
def SM4_SBOX : List Nat := [
   0xd6,0x90,0xe9,0xfe,0xcc,0xe1,0x3d,0xb7,0x16,0xb6,0x14,0xc2,0x28,0xfb,0x2c,0x05,
   0x2b,0x67,0x9a,0x76,0x2a,0xbe,0x04,0xc3,0xaa,0x44,0x13,0x26,0x49,0x86,0x06,0x99,
   0x9c,0x42,0x50,0xf4,0x91,0xef,0x98,0x7a,0x33,0x54,0x0b,0x43,0xed,0xcf,0xac,0x62,
   0xe4,0xb3,0x1c,0xa9,0xc9,0x08,0xe8,0x95,0x80,0xdf,0x94,0xfa,0x75,0x8f,0x3f,0xa6,
   0x47,0x07,0xa7,0xfc,0xf3,0x73,0x17,0xba,0x83,0x59,0x3c,0x19,0xe6,0x85,0x4f,0xa8,
   0x68,0x6b,0x81,0xb2,0x71,0x64,0xda,0x8b,0xf8,0xeb,0x0f,0x4b,0x70,0x56,0x9d,0x35,
   0x1e,0x24,0x0e,0x5e,0x63,0x58,0xd1,0xa2,0x25,0x22,0x7c,0x3b,0x01,0x21,0x78,0x87,
   0xd4,0x00,0x46,0x57,0x9f,0xd3,0x27,0x52,0x4c,0x36,0x02,0xe7,0xa0,0xc4,0xc8,0x9e,
   0xea,0xbf,0x8a,0xd2,0x40,0xc7,0x38,0xb5,0xa3,0xf7,0xf2,0xce,0xf9,0x61,0x15,0xa1,
   0xe0,0xae,0x5d,0xa4,0x9b,0x34,0x1a,0x55,0xad,0x93,0x32,0x30,0xf5,0x8c,0xb1,0xe3,
   0x1d,0xf6,0xe2,0x2e,0x82,0x66,0xca,0x60,0xc0,0x29,0x23,0xab,0x0d,0x53,0x4e,0x6f,
   0xd5,0xdb,0x37,0x45,0xde,0xfd,0x8e,0x2f,0x03,0xff,0x6a,0x72,0x6d,0x6c,0x5b,0x51,
   0x8d,0x1b,0xaf,0x92,0xbb,0xdd,0xbc,0x7f,0x11,0xd9,0x5c,0x41,0x1f,0x10,0x5a,0xd8,
   0x0a,0xc1,0x31,0x88,0xa5,0xcd,0x7b,0xbd,0x2d,0x74,0xd0,0x12,0xb8,0xe5,0xb4,0xb0,
   0x89,0x69,0x97,0x4a,0x0c,0x96,0x77,0x7e,0x65,0xb9,0xf1,0x09,0xc5,0x6e,0xc6,0x84,
   0x18,0xf0,0x7d,0xec,0x3a,0xdc,0x4d,0x20,0x79,0xee,0x5f,0x3e,0xd7,0xcb,0x39,0x48
]

/-- Table `FK` of `sm4.cpp`. -/
def FK : List Nat := [0xa3b1bac6, 0x56aa3350, 0x677d9197, 0xb27022dc]

/-- Table `CK` of `sm4.cpp`. -/
def CK : List Nat := [
   0x00070e15,0x1c232a31,0x383f464d,0x545b6269,0x70777e85,0x8c939aa1,0xa8afb6bd,0xc4cbd2d9,
   0xe0e7eef5,0xfc030a11,0x181f262d,0x343b4249,0x50575e65,0x6c737a81,0x888f969d,0xa4abb2b9,
   0xc0c7ced5,0xdce3eaf1,0xf8ff060d,0x141b2229,0x30373e45,0x4c535a61,0x686f767d,0x848b9299,
   0xa0a7aeb5,0xbcc3cad1,0xd8dfe6ed,0xf4fb0209,0x10171e25,0x2c333a41,0x484f565d,0x646b7279
]

/-- Function `rotl` of `sm4.cpp`: `(x << n) | (x >> (32 - n))` on `uint32_t`. -/
def rotl (x n : Nat) : Nat :=
  ((x <<< n) % 2 ^ 32) ||| (x >>> (32 - n))

/-- Function `T` of `sm4.cpp`.  The four `static_cast<uint8_t>` are reductions modulo `2 ^ 8`; the
bytes are recombined in `int` arithmetic and the result is converted to `uint32_t`, which keeps
its low 32 bits. -/
def T (A : Nat) : Nat :=
  let a : List Nat := [(A >>> 24) % 2 ^ 8, (A >>> 16) % 2 ^ 8, (A >>> 8) % 2 ^ 8, A % 2 ^ 8]
  let a := (List.range 4).foldl (fun a i => a.set i (SM4_SBOX.getD (a.getD i 0) 0)) a
  let B := ((a.getD 0 0 <<< 24) ||| (a.getD 1 0 <<< 16) ||| (a.getD 2 0 <<< 8) ||| a.getD 3 0) % 2 ^ 32
  B ^^^ rotl B 2 ^^^ rotl B 10 ^^^ rotl B 18 ^^^ rotl B 24

/-- Function `T_prime` of `sm4.cpp`. -/
def T_prime (A : Nat) : Nat :=
  let a : List Nat := [(A >>> 24) % 2 ^ 8, (A >>> 16) % 2 ^ 8, (A >>> 8) % 2 ^ 8, A % 2 ^ 8]
  let a := (List.range 4).foldl (fun a i => a.set i (SM4_SBOX.getD (a.getD i 0) 0)) a
  let B := ((a.getD 0 0 <<< 24) ||| (a.getD 1 0 <<< 16) ||| (a.getD 2 0 <<< 8) ||| a.getD 3 0) % 2 ^ 32
  B ^^^ rotl B 13 ^^^ rotl B 23

/-- Function `key_schedule` of `sm4.cpp`; the result is the content written to `rk`.  The local
buffer `K` starts as 36 zero words (its entries are all written before they are read). -/
def key_schedule (key : List Nat) : List Nat :=
  let K : List Nat := List.replicate 36 0
  let K := (List.range 4).foldl (fun K i => K.set i (key.getD i 0 ^^^ FK.getD i 0)) K
  let K := (List.range 32).foldl
    (fun K i => K.set (i + 4)
      (K.getD i 0 ^^^ T_prime (K.getD (i + 1) 0 ^^^ K.getD (i + 2) 0 ^^^ K.getD (i + 3) 0 ^^^ CK.getD i 0))) K
  memcpy (List.replicate 32 0) (K.drop 4) 32

/-- Function `sm4_crypt` of `sm4.cpp`; the result is the content of `block` on return. -/
def sm4_crypt (block rk : List Nat) (enc : Bool) : List Nat :=
  let X : List Nat := memcpy (List.replicate 36 0) block 4
  let X := (List.range 32).foldl
    (fun X i =>
      let r := if enc then i else 31 - i
      X.set (i + 4)
        (X.getD i 0 ^^^ T (X.getD (i + 1) 0 ^^^ X.getD (i + 2) 0 ^^^ X.getD (i + 3) 0 ^^^ rk.getD r 0))) X
  (List.range 4).foldl (fun block i => block.set i (X.getD (35 - i) 0)) block

end SM4

namespace TTable

/-- Table `SM4_SBOX` of `ttable.cpp`. -/
def SM4_SBOX : List Nat := [
   0xd6,0x90,0xe9,0xfe,0xcc,0xe1,0x3d,0xb7,0x16,0xb6,0x14,0xc2,0x28,0xfb,0x2c,0x05,
   0x2b,0x67,0x9a,0x76,0x2a,0xbe,0x04,0xc3,0xaa,0x44,0x13,0x26,0x49,0x86,0x06,0x99,
   0x9c,0x42,0x50,0xf4,0x91,0xef,0x98,0x7a,0x33,0x54,0x0b,0x43,0xed,0xcf,0xac,0x62,
   0xe4,0xb3,0x1c,0xa9,0xc9,0x08,0xe8,0x95,0x80,0xdf,0x94,0xfa,0x75,0x8f,0x3f,0xa6,
   0x47,0x07,0xa7,0xfc,0xf3,0x73,0x17,0xba,0x83,0x59,0x3c,0x19,0xe6,0x85,0x4f,0xa8,
   0x68,0x6b,0x81,0xb2,0x71,0x64,0xda,0x8b,0xf8,0xeb,0x0f,0x4b,0x70,0x56,0x9d,0x35,
   0x1e,0x24,0x0e,0x5e,0x63,0x58,0xd1,0xa2,0x25,0x22,0x7c,0x3b,0x01,0x21,0x78,0x87,
   0xd4,0x00,0x46,0x57,0x9f,0xd3,0x27,0x52,0x4c,0x36,0x02,0xe7,0xa0,0xc4,0xc8,0x9e,
   0xea,0xbf,0x8a,0xd2,0x40,0xc7,0x38,0xb5,0xa3,0xf7,0xf2,0xce,0xf9,0x61,0x15,0xa1,
   0xe0,0xae,0x5d,0xa4,0x9b,0x34,0x1a,0x55,0xad,0x93,0x32,0x30,0xf5,0x8c,0xb1,0xe3,
   0x1d,0xf6,0xe2,0x2e,0x82,0x66,0xca,0x60,0xc0,0x29,0x23,0xab,0x0d,0x53,0x4e,0x6f,
   0xd5,0xdb,0x37,0x45,0xde,0xfd,0x8e,0x2f,0x03,0xff,0x6a,0x72,0x6d,0x6c,0x5b,0x51,
   0x8d,0x1b,0xaf,0x92,0xbb,0xdd,0xbc,0x7f,0x11,0xd9,0x5c,0x41,0x1f,0x10,0x5a,0xd8,
   0x0a,0xc1,0x31,0x88,0xa5,0xcd,0x7b,0xbd,0x2d,0x74,0xd0,0x12,0xb8,0xe5,0xb4,0xb0,
   0x89,0x69,0x97,0x4a,0x0c,0x96,0x77,0x7e,0x65,0xb9,0xf1,0x09,0xc5,0x6e,0xc6,0x84,
   0x18,0xf0,0x7d,0xec,0x3a,0xdc,0x4d,0x20,0x79,0xee,0x5f,0x3e,0xd7,0xcb,0x39,0x48
]

/-- Table `SM4_FK` of `ttable.cpp`. -/
def SM4_FK : List Nat := [0xa3b1bac6, 0x56aa3350, 0x677d9197, 0xb27022dc]

/-- Table `SM4_CK` of `ttable.cpp`. -/
def SM4_CK : List Nat := [
   0x00070e15,0x1c232a31,0x383f464d,0x545b6269,0x70777e85,0x8c939aa1,0xa8afb6bd,0xc4cbd2d9,
   0xe0e7eef5,0xfc030a11,0x181f262d,0x343b4249,0x50575e65,0x6c737a81,0x888f969d,0xa4abb2b9,
   0xc0c7ced5,0xdce3eaf1,0xf8ff060d,0x141b2229,0x30373e45,0x4c535a61,0x686f767d,0x848b9299,
   0xa0a7aeb5,0xbcc3cad1,0xd8dfe6ed,0xf4fb0209,0x10171e25,0x2c333a41,0x484f565d,0x646b7279
]

/-- The four global lookup tables `TBox0 .. TBox3` of `ttable.cpp`. -/
structure TBoxes where
  TBox0 : List Nat
  TBox1 : List Nat
  TBox2 : List Nat
  TBox3 : List Nat
deriving DecidableEq, Repr

/-- State of the global tables at program start: objects with static storage duration are
zero-initialised, so each table holds 256 zero words. -/
def TBoxes.zero : TBoxes :=
  ⟨List.replicate 256 0, List.replicate 256 0, List.replicate 256 0, List.replicate 256 0⟩

/-- Function `rotateLeft` of `ttable.cpp`. -/
def rotateLeft (value shiftBits : Nat) : Nat :=
  ((value <<< shiftBits) % 2 ^ 32) ||| (value >>> (32 - shiftBits))

/-- Function `linearTransformL` of `ttable.cpp`. -/
def linearTransformL (value : Nat) : Nat :=
  value ^^^ rotateLeft value 2 ^^^ rotateLeft value 10 ^^^ rotateLeft value 18 ^^^ rotateLeft value 24

/-- One iteration of the loop of `initTBox`, for index `i`. -/
def initTBoxStep (tb : TBoxes) (i : Nat) : TBoxes :=
  let sBoxVal := SM4_SBOX.getD i 0
  let transformed := linearTransformL ((sBoxVal <<< 24) % 2 ^ 32)
  { TBox0 := tb.TBox0.set i transformed,
    TBox1 := tb.TBox1.set i (rotateLeft transformed 8),
    TBox2 := tb.TBox2.set i (rotateLeft transformed 16),
    TBox3 := tb.TBox3.set i (rotateLeft transformed 24) }

/-- Function `initTBox` of `ttable.cpp`, as a transformer of the global tables. -/
def initTBox (tb : TBoxes) : TBoxes :=
  (List.range 256).foldl initTBoxStep tb

/-- Function `tTransformLookup` of `ttable.cpp`, reading the global tables `tb`. -/
def tTransformLookup (tb : TBoxes) (value : Nat) : Nat :=
  tb.TBox0.getD ((value >>> 24) &&& 0xFF) 0
    ^^^ tb.TBox1.getD ((value >>> 16) &&& 0xFF) 0
    ^^^ tb.TBox2.getD ((value >>> 8) &&& 0xFF) 0
    ^^^ tb.TBox3.getD (value &&& 0xFF) 0

/-- Function `tPrimeTransform` of `ttable.cpp`. -/
def tPrimeTransform (value : Nat) : Nat :=
  let bytes : List Nat :=
    [(value >>> 24) % 2 ^ 8, (value >>> 16) % 2 ^ 8, (value >>> 8) % 2 ^ 8, value % 2 ^ 8]
  let bytes := (List.range 4).foldl (fun bytes i => bytes.set i (SM4_SBOX.getD (bytes.getD i 0) 0)) bytes
  let merged := ((bytes.getD 0 0 <<< 24) % 2 ^ 32) ||| ((bytes.getD 1 0 <<< 16) % 2 ^ 32)
    ||| ((bytes.getD 2 0 <<< 8) % 2 ^ 32) ||| bytes.getD 3 0
  merged ^^^ rotateLeft merged 13 ^^^ rotateLeft merged 23

/-- Function `generateRoundKeys` of `ttable.cpp`; the result is the content written to
`roundKeys`. -/
def generateRoundKeys (key : List Nat) : List Nat :=
  let intermediateKeys : List Nat := List.replicate 36 0
  let intermediateKeys := (List.range 4).foldl
    (fun ik i => ik.set i (key.getD i 0 ^^^ SM4_FK.getD i 0)) intermediateKeys
  let intermediateKeys := (List.range 32).foldl
    (fun ik i => ik.set (i + 4)
      (ik.getD i 0 ^^^ tPrimeTransform
        (ik.getD (i + 1) 0 ^^^ ik.getD (i + 2) 0 ^^^ ik.getD (i + 3) 0 ^^^ SM4_CK.getD i 0)))
    intermediateKeys
  memcpy (List.replicate 32 0) (intermediateKeys.drop 4) 32

/-- Function `sm4Cipher` of `ttable.cpp`, reading the global tables `tb`; the result is the
content of `block` on return. -/
def sm4Cipher (tb : TBoxes) (block roundKeys : List Nat) (isEncrypt : Bool) : List Nat :=
  let state : List Nat := memcpy (List.replicate 36 0) block 4
  let state := (List.range 32).foldl
    (fun state round =>
      let roundIdx := if isEncrypt then round else 31 - round
      state.set (round + 4)
        (state.getD round 0 ^^^ tTransformLookup tb
          (state.getD (round + 1) 0 ^^^ state.getD (round + 2) 0 ^^^ state.getD (round + 3) 0
            ^^^ roundKeys.getD roundIdx 0))) state
  (List.range 4).foldl (fun block i => block.set i (state.getD (35 - i) 0)) block

end TTable

/-! ## Auxiliary definitions used to state the properties -/

/-- The word sequence `u` generated from the first four words of `init` by the four-term feedback
recurrence `u (n + 4) = u n ^^^ F n (u (n + 1) ^^^ u (n + 2) ^^^ u (n + 3))`, which is the shape
shared by the expansion loops of the key schedule and of the round engine. -/
def feedbackSeq (F : Nat → Nat → Nat) (init : List Nat) : Nat → Nat
  | 0 => init.getD 0 0
  | 1 => init.getD 1 0
  | 2 => init.getD 2 0
  | 3 => init.getD 3 0
  | n + 4 => feedbackSeq F init n ^^^
      F n (feedbackSeq F init (n + 1) ^^^ feedbackSeq F init (n + 2) ^^^ feedbackSeq F init (n + 3))

/-- The 32-round engine shared by `sm4_crypt` and `sm4Cipher`, with the composite transform `Tf` as
a parameter: the body of either function with its transform abstracted. -/
def roundEngine (Tf : Nat → Nat) (block rk : List Nat) (enc : Bool) : List Nat :=
  let X : List Nat := memcpy (List.replicate 36 0) block 4
  let X := (List.range 32).foldl
    (fun X i =>
      let r := if enc then i else 31 - i
      X.set (i + 4)
        (X.getD i 0 ^^^ Tf (X.getD (i + 1) 0 ^^^ X.getD (i + 2) 0 ^^^ X.getD (i + 3) 0 ^^^ rk.getD r 0))) X
  (List.range 4).foldl (fun block i => block.set i (X.getD (35 - i) 0)) block

/-- The round function of round `i` of the engine: the transform applied after mixing in the round
key selected by the direction flag. -/
def roundFn (Tf : Nat → Nat) (rk : List Nat) (enc : Bool) : Nat → Nat → Nat :=
  fun i x => Tf (x ^^^ rk.getD (if enc then i else 31 - i) 0)

/-! ## The key schedule as the specification words it -/

/-- Circular left rotation of a 32-bit word by `n` places, in arithmetic form: the low `32 - n`
bits move up by `n` places and the high `n` bits come back in at the bottom. -/
def specRotl (B n : Nat) : Nat :=
  (B * 2 ^ n) % 2 ^ 32 + B / 2 ^ (32 - n)

/-- Composite transform `T′` in the words of the specification: split the word into four bytes,
most significant first, apply the S-box to each byte, recombine the bytes in the same order into
`B`, and return `B ⊕ rotl(B,13) ⊕ rotl(B,23)`. -/
def specTPrime (A : Nat) : Nat :=
  let B := SM4.SM4_SBOX.getD (A / 2 ^ 24 % 256) 0 * 2 ^ 24
    + SM4.SM4_SBOX.getD (A / 2 ^ 16 % 256) 0 * 2 ^ 16
    + SM4.SM4_SBOX.getD (A / 2 ^ 8 % 256) 0 * 2 ^ 8
    + SM4.SM4_SBOX.getD (A % 256) 0
  B ^^^ specRotl B 13 ^^^ specRotl B 23

/-- Expansion sequence `K` of the key schedule in the words of the specification:
`K[0..3] = key[0..3] ⊕ FK[0..3]` and `K[i+4] = K[i] ⊕ T′(K[i+1] ⊕ K[i+2] ⊕ K[i+3] ⊕ CK[i])`. -/
def specK (key : List Nat) : Nat → Nat
  | 0 => key.getD 0 0 ^^^ SM4.FK.getD 0 0
  | 1 => key.getD 1 0 ^^^ SM4.FK.getD 1 0
  | 2 => key.getD 2 0 ^^^ SM4.FK.getD 2 0
  | 3 => key.getD 3 0 ^^^ SM4.FK.getD 3 0
  | i + 4 => specK key i ^^^
      specTPrime (specK key (i + 1) ^^^ specK key (i + 2) ^^^ specK key (i + 3) ^^^ SM4.CK.getD i 0)

/-- The word `initTBox` stores in `TBox0[b]`: `L` applied to the S-box image of `b` placed in the
most significant byte. -/
def tboxBase (b : Nat) : Nat :=
  TTable.linearTransformL ((TTable.SM4_SBOX.getD b 0 <<< 24) % 2 ^ 32)

/-- The value of `tTransformLookup` once the tables have been filled by `initTBox`, written
without the tables. -/
def lookupWord (value : Nat) : Nat :=
  tboxBase ((value >>> 24) &&& 0xFF)
    ^^^ TTable.rotateLeft (tboxBase ((value >>> 16) &&& 0xFF)) 8
    ^^^ TTable.rotateLeft (tboxBase ((value >>> 8) &&& 0xFF)) 16
    ^^^ TTable.rotateLeft (tboxBase (value &&& 0xFF)) 24

/-- Linear diffusion `L` in the words of the specification:
`L(B) = B ⊕ rotl(B,2) ⊕ rotl(B,10) ⊕ rotl(B,18) ⊕ rotl(B,24)` with circular rotations. -/
def specL (B : Nat) : Nat :=
  B ^^^ specRotl B 2 ^^^ specRotl B 10 ^^^ specRotl B 18 ^^^ specRotl B 24

/-- The four global tables are arrays of 256 words each. -/
def tablesSized (tb : TTable.TBoxes) : Prop :=
  tb.TBox0.length = 256 ∧ tb.TBox1.length = 256 ∧ tb.TBox2.length = 256 ∧ tb.TBox3.length = 256

/-- The word whose bytes, most significant first, are `(b0, b3, b2, b1)` when those of `value`
are `(b0, b1, b2, b3)`: `value` with its second-most-significant byte and its least-significant
byte exchanged. -/
def swapSecondAndLastByte (value : Nat) : Nat :=
  (value / 2 ^ 24 % 256) * 2 ^ 24 + (value % 256) * 2 ^ 16 + (value / 2 ^ 8 % 256) * 2 ^ 8
    + (value / 2 ^ 16 % 256)

/-! ## The engine with every array access checked -/

/-- Ways in which a call can end without a result.  `OutOfBounds` is raised by the access checks
of the checked embedding below: an access outside an array, which is undefined behaviour in C.
`InvalidLength` and `NotInitialized` are the two errors named by the specification (§7); no
statement of `sm4.cpp` or `ttable.cpp` produces them, since the functions take bare pointers,
return `void` or a word, and contain no check and no `throw`. -/
inductive Fault where
  | OutOfBounds
  | InvalidLength
  | NotInitialized
deriving DecidableEq, Repr

/-- Checked read `a[i]`. -/
def readAt (a : List Nat) (i : Nat) : Except Fault Nat :=
  if i < a.length then .ok (a.getD i 0) else .error .OutOfBounds

/-- Checked write `a[i] = v`. -/
def writeAt (a : List Nat) (i v : Nat) : Except Fault (List Nat) :=
  if i < a.length then .ok (a.set i v) else .error .OutOfBounds

/-- Checked `memcpy` of `n` words: all `n` words are read from `src` and written to `dst`. -/
def memcpyChecked (dst src : List Nat) (n : Nat) : Except Fault (List Nat) :=
  if n ≤ src.length ∧ n ≤ dst.length then .ok (memcpy dst src n) else .error .OutOfBounds

namespace SM4.Checked

/-- Function `T` of `sm4.cpp` with every array access checked. -/
def T (A : Nat) : Except Fault Nat := do
  let a : List Nat := [(A >>> 24) % 2 ^ 8, (A >>> 16) % 2 ^ 8, (A >>> 8) % 2 ^ 8, A % 2 ^ 8]
  let a ← (List.range 4).foldlM (fun a i => do
    let x ← readAt a i
    let s ← readAt SM4_SBOX x
    writeAt a i s) a
  let a0 ← readAt a 0
  let a1 ← readAt a 1
  let a2 ← readAt a 2
  let a3 ← readAt a 3
  let B := ((a0 <<< 24) ||| (a1 <<< 16) ||| (a2 <<< 8) ||| a3) % 2 ^ 32
  pure (B ^^^ rotl B 2 ^^^ rotl B 10 ^^^ rotl B 18 ^^^ rotl B 24)

/-- Function `T_prime` of `sm4.cpp` with every array access checked. -/
def T_prime (A : Nat) : Except Fault Nat := do
  let a : List Nat := [(A >>> 24) % 2 ^ 8, (A >>> 16) % 2 ^ 8, (A >>> 8) % 2 ^ 8, A % 2 ^ 8]
  let a ← (List.range 4).foldlM (fun a i => do
    let x ← readAt a i
    let s ← readAt SM4_SBOX x
    writeAt a i s) a
  let a0 ← readAt a 0
  let a1 ← readAt a 1
  let a2 ← readAt a 2
  let a3 ← readAt a 3
  let B := ((a0 <<< 24) ||| (a1 <<< 16) ||| (a2 <<< 8) ||| a3) % 2 ^ 32
  pure (B ^^^ rotl B 13 ^^^ rotl B 23)

/-- Function `key_schedule` of `sm4.cpp` with every array access checked. -/
def key_schedule (key : List Nat) : Except Fault (List Nat) := do
  let K : List Nat := List.replicate 36 0
  let K ← (List.range 4).foldlM (fun K i => do
    let k ← readAt key i
    let f ← readAt FK i
    writeAt K i (k ^^^ f)) K
  let K ← (List.range 32).foldlM (fun K i => do
    let k0 ← readAt K i
    let k1 ← readAt K (i + 1)
    let k2 ← readAt K (i + 2)
    let k3 ← readAt K (i + 3)
    let c ← readAt CK i
    let t ← T_prime (k1 ^^^ k2 ^^^ k3 ^^^ c)
    writeAt K (i + 4) (k0 ^^^ t)) K
  memcpyChecked (List.replicate 32 0) (K.drop 4) 32

/-- Function `sm4_crypt` of `sm4.cpp` with every array access checked. -/
def sm4_crypt (block rk : List Nat) (enc : Bool) : Except Fault (List Nat) := do
  let X ← memcpyChecked (List.replicate 36 0) block 4
  let X ← (List.range 32).foldlM (fun X i => do
    let r := if enc then i else 31 - i
    let x0 ← readAt X i
    let x1 ← readAt X (i + 1)
    let x2 ← readAt X (i + 2)
    let x3 ← readAt X (i + 3)
    let k ← readAt rk r
    let t ← T (x1 ^^^ x2 ^^^ x3 ^^^ k)
    writeAt X (i + 4) (x0 ^^^ t)) X
  (List.range 4).foldlM (fun block i => do
    let x ← readAt X (35 - i)
    writeAt block i x) block

end SM4.Checked

namespace TTable.Checked

/-- Function `tTransformLookup` of `ttable.cpp` with every array access checked. -/
def tTransformLookup (tb : TBoxes) (value : Nat) : Except Fault Nat := do
  let t0 ← readAt tb.TBox0 ((value >>> 24) &&& 0xFF)
  let t1 ← readAt tb.TBox1 ((value >>> 16) &&& 0xFF)
  let t2 ← readAt tb.TBox2 ((value >>> 8) &&& 0xFF)
  let t3 ← readAt tb.TBox3 (value &&& 0xFF)
  pure (t0 ^^^ t1 ^^^ t2 ^^^ t3)

/-- Function `sm4Cipher` of `ttable.cpp` with every array access checked. -/
def sm4Cipher (tb : TBoxes) (block roundKeys : List Nat) (isEncrypt : Bool) :
    Except Fault (List Nat) := do
  let state ← memcpyChecked (List.replicate 36 0) block 4
  let state ← (List.range 32).foldlM (fun state round => do
    let roundIdx := if isEncrypt then round else 31 - round
    let s0 ← readAt state round
    let s1 ← readAt state (round + 1)
    let s2 ← readAt state (round + 2)
    let s3 ← readAt state (round + 3)
    let k ← readAt roundKeys roundIdx
    let t ← tTransformLookup tb (s1 ^^^ s2 ^^^ s3 ^^^ k)
    writeAt state (round + 4) (s0 ^^^ t)) state
  (List.range 4).foldlM (fun block i => do
    let x ← readAt state (35 - i)
    writeAt block i x) block

end TTable.Checked

/-- The 32-round engine with every array access checked, with the checked composite transform
`Tf` as a parameter: the body shared by the checked `sm4_crypt` and the checked `sm4Cipher`. -/
def roundEngineChecked (Tf : Nat → Except Fault Nat) (block rk : List Nat) (enc : Bool) :
    Except Fault (List Nat) := do
  let X ← memcpyChecked (List.replicate 36 0) block 4
  let X ← (List.range 32).foldlM (fun X i => do
    let r := if enc then i else 31 - i
    let x0 ← readAt X i
    let x1 ← readAt X (i + 1)
    let x2 ← readAt X (i + 2)
    let x3 ← readAt X (i + 3)
    let k ← readAt rk r
    let t ← Tf (x1 ^^^ x2 ^^^ x3 ^^^ k)
    writeAt X (i + 4) (x0 ^^^ t)) X
  (List.range 4).foldlM (fun block i => do
    let x ← readAt X (35 - i)
    writeAt block i x) block


/-! ## General lemmas on buffers and feedback sequences -/

theorem getD_set_self_lt (l : List Nat) (i v : Nat) (h : i < l.length) :
    (l.set i v).getD i 0 = v := by
  simp [List.getD_eq_getElem?_getD, List.getElem?_set_self h]

theorem getD_set_of_ne (l : List Nat) (i j v : Nat) (h : i ≠ j) :
    (l.set i v).getD j 0 = l.getD j 0 := by
  simp [List.getD_eq_getElem?_getD, List.getElem?_set_ne h]

theorem xor3_reverse (a b c : Nat) : a ^^^ b ^^^ c = c ^^^ b ^^^ a := by
  ac_rfl

theorem feedbackSeq_lt_four (F : Nat → Nat → Nat) (init : List Nat) (j : Nat) (h : j < 4) :
    feedbackSeq F init j = init.getD j 0 := by
  interval_cases j <;> simp [feedbackSeq]

theorem feedbackSeq_add_four (F : Nat → Nat → Nat) (init : List Nat) (n : Nat) :
    feedbackSeq F init (n + 4) = feedbackSeq F init n ^^^
      F n (feedbackSeq F init (n + 1) ^^^ feedbackSeq F init (n + 2) ^^^ feedbackSeq F init (n + 3)) := by
  simp [feedbackSeq]

/-- The expansion loop run for `n ≤ 32` iterations on a 36-word buffer keeps the length and has
filled entries `0 .. n + 3` with the feedback sequence of the first four entries. -/
theorem foldl_feedback (F : Nat → Nat → Nat) (X0 : List Nat) (h0 : X0.length = 36) (n : Nat)
    (hn : n ≤ 32) :
    ((List.range n).foldl (fun X i => X.set (i + 4)
        (X.getD i 0 ^^^ F i (X.getD (i + 1) 0 ^^^ X.getD (i + 2) 0 ^^^ X.getD (i + 3) 0))) X0).length = 36 ∧
    ∀ j, j < n + 4 →
      ((List.range n).foldl (fun X i => X.set (i + 4)
        (X.getD i 0 ^^^ F i (X.getD (i + 1) 0 ^^^ X.getD (i + 2) 0 ^^^ X.getD (i + 3) 0))) X0).getD j 0
        = feedbackSeq F X0 j := by
  induction n with
  | zero =>
    refine ⟨by simpa using h0, fun j hj => ?_⟩
    rw [feedbackSeq_lt_four F X0 j (by omega)]
    simp
  | succ n ih =>
    obtain ⟨hlen, hget⟩ := ih (by omega)
    rw [List.range_succ, List.foldl_append]
    simp only [List.foldl_cons, List.foldl_nil]
    refine ⟨by rw [List.length_set]; exact hlen, fun j hj => ?_⟩
    by_cases hjn : j = n + 4
    · subst hjn
      rw [getD_set_self_lt _ _ _ (by omega), hget n (by omega), hget (n + 1) (by omega),
        hget (n + 2) (by omega), hget (n + 3) (by omega), feedbackSeq_add_four]
    · rw [getD_set_of_ne _ _ _ _ (by omega), hget j (by omega)]

/-- Running the feedback recurrence with the round functions in reverse order, from the last four
words taken in reverse order, walks the sequence backwards. -/
theorem feedbackSeq_reverse (F G : Nat → Nat → Nat) (hFG : ∀ i, i < 32 → G i = F (31 - i))
    (P C : List Nat) (hC : ∀ j, j < 4 → C.getD j 0 = feedbackSeq F P (35 - j)) :
    ∀ j, j ≤ 35 → feedbackSeq G C j = feedbackSeq F P (35 - j) := by
  intro j
  induction j using Nat.strong_induction_on with
  | _ j ih =>
    intro hj
    by_cases h4 : j < 4
    · rw [feedbackSeq_lt_four G C j h4, hC j h4]
    · obtain ⟨i, rfl⟩ : ∃ i, j = i + 4 := ⟨j - 4, by omega⟩
      rw [feedbackSeq_add_four, ih i (by omega) (by omega), ih (i + 1) (by omega) (by omega),
        ih (i + 2) (by omega) (by omega), ih (i + 3) (by omega) (by omega), hFG i (by omega)]
      obtain ⟨m, hm⟩ : ∃ m, m = 31 - i := ⟨_, rfl⟩
      have e0 : 35 - i = m + 4 := by omega
      have e1 : 35 - (i + 1) = m + 3 := by omega
      have e2 : 35 - (i + 2) = m + 2 := by omega
      have e3 : 35 - (i + 3) = m + 1 := by omega
      have e4 : 35 - (i + 4) = m := by omega
      rw [e0, e1, e2, e3, e4, ← hm, feedbackSeq_add_four]
      rw [xor3_reverse (feedbackSeq F P (m + 3))]
      rw [Nat.xor_assoc, Nat.xor_self, Nat.xor_zero]

/-! ## The round engine -/

theorem sm4_crypt_eq_roundEngine (block rk : List Nat) (enc : Bool) :
    SM4.sm4_crypt block rk enc = roundEngine SM4.T block rk enc := rfl

theorem sm4Cipher_eq_roundEngine (tb : TTable.TBoxes) (block rk : List Nat) (enc : Bool) :
    TTable.sm4Cipher tb block rk enc = roundEngine (TTable.tTransformLookup tb) block rk enc := rfl

theorem feedbackSeq_congr (F : Nat → Nat → Nat) (init init' : List Nat)
    (h : ∀ j, j < 4 → init.getD j 0 = init'.getD j 0) :
    ∀ n, feedbackSeq F init n = feedbackSeq F init' n := by
  intro n
  induction n using Nat.strong_induction_on with
  | _ n ih =>
    by_cases h4 : n < 4
    · rw [feedbackSeq_lt_four F init n h4, feedbackSeq_lt_four F init' n h4, h n h4]
    · obtain ⟨i, rfl⟩ : ∃ i, n = i + 4 := ⟨n - 4, by omega⟩
      rw [feedbackSeq_add_four, feedbackSeq_add_four, ih i (by omega), ih (i + 1) (by omega),
        ih (i + 2) (by omega), ih (i + 3) (by omega)]

/-- The engine returns the last four words of the feedback sequence of the block, in reverse
order. -/
theorem roundEngine_eq (Tf : Nat → Nat) (block rk : List Nat) (enc : Bool)
    (h : block.length = 4) :
    roundEngine Tf block rk enc =
      [feedbackSeq (roundFn Tf rk enc) block 35, feedbackSeq (roundFn Tf rk enc) block 34,
       feedbackSeq (roundFn Tf rk enc) block 33, feedbackSeq (roundFn Tf rk enc) block 32] := by
  match block, h with
  | [a, b, c, d], _ =>
    have hlen : (memcpy (List.replicate 36 0) [a, b, c, d] 4).length = 36 := rfl
    have key := foldl_feedback (roundFn Tf rk enc) _ hlen 32 (le_refl 32)
    have hc := feedbackSeq_congr (roundFn Tf rk enc) (memcpy (List.replicate 36 0) [a, b, c, d] 4)
      [a, b, c, d] (by intro j hj; interval_cases j <;> rfl)
    have h35 := key.2 35 (by omega)
    have h34 := key.2 34 (by omega)
    have h33 := key.2 33 (by omega)
    have h32 := key.2 32 (by omega)
    rw [hc] at h35 h34 h33 h32
    rw [← h35, ← h34, ← h33, ← h32]
    rfl

theorem roundFn_flip (Tf : Nat → Nat) (rk : List Nat) (enc : Bool) (i : Nat) (hi : i < 32) :
    roundFn Tf rk (!enc) i = roundFn Tf rk enc (31 - i) := by
  funext x
  cases enc
  · have e : 31 - (31 - i) = i := by omega
    simp [roundFn, e]
  · simp [roundFn]

/-- Running the engine in one direction and then in the other, with the same round keys, gives
the block back, whatever the transform `Tf` and the round keys are. -/
theorem roundEngine_roundtrip (Tf : Nat → Nat) (P rk : List Nat) (enc : Bool)
    (h : P.length = 4) :
    roundEngine Tf (roundEngine Tf P rk enc) rk (!enc) = P := by
  rw [roundEngine_eq Tf P rk enc h, roundEngine_eq Tf [_, _, _, _] rk (!enc) rfl]
  have hrev := feedbackSeq_reverse (roundFn Tf rk enc) (roundFn Tf rk (!enc))
    (roundFn_flip Tf rk enc) P
    [feedbackSeq (roundFn Tf rk enc) P 35, feedbackSeq (roundFn Tf rk enc) P 34,
     feedbackSeq (roundFn Tf rk enc) P 33, feedbackSeq (roundFn Tf rk enc) P 32]
    (by intro j hj; interval_cases j <;> rfl)
  rw [hrev 35 (by omega), hrev 34 (by omega), hrev 33 (by omega), hrev 32 (by omega)]
  match P, h with
  | [a, b, c, d], _ => rfl

/-- The two directions differ only in the order in which the round keys are consumed. -/
theorem roundEngine_reverse_keys (Tf : Nat → Nat) (block rk rk' : List Nat)
    (h : ∀ i, i < 32 → rk'.getD i 0 = rk.getD (31 - i) 0) :
    roundEngine Tf block rk false = roundEngine Tf block rk' true := by
  unfold roundEngine
  have hfold : ∀ X0 : List Nat,
      (List.range 32).foldl (fun X i =>
        let r := if false = true then i else 31 - i
        X.set (i + 4)
          (X.getD i 0 ^^^ Tf (X.getD (i + 1) 0 ^^^ X.getD (i + 2) 0 ^^^ X.getD (i + 3) 0 ^^^ rk.getD r 0))) X0
      = (List.range 32).foldl (fun X i =>
        let r := if true = true then i else 31 - i
        X.set (i + 4)
          (X.getD i 0 ^^^ Tf (X.getD (i + 1) 0 ^^^ X.getD (i + 2) 0 ^^^ X.getD (i + 3) 0 ^^^ rk'.getD r 0))) X0 := by
    intro X0
    apply List.foldl_ext
    intro X i hi
    have hi' : i < 32 := List.mem_range.mp hi
    simp only [if_true, Bool.false_eq_true, if_false, h i hi']
  simp only [hfold]

/-! ## The key schedule -/

set_option maxRecDepth 100000 in
theorem sbox_getD_lt (i : Nat) : SM4.SM4_SBOX.getD i 0 < 256 := by
  have hall : ∀ x ∈ SM4.SM4_SBOX, x < 256 := by decide
  by_cases hi : i < SM4.SM4_SBOX.length
  · rw [List.getD_eq_getElem _ _ hi]
    exact hall _ (List.getElem_mem hi)
  · rw [List.getD_eq_default _ _ (by omega)]
    decide

theorem pack_bytes (s0 s1 s2 s3 : Nat) (h1 : s1 < 256) (h2 : s2 < 256) (h3 : s3 < 256) :
    (s0 <<< 24 ||| s1 <<< 16 ||| s2 <<< 8 ||| s3)
      = s0 * 2 ^ 24 + s1 * 2 ^ 16 + s2 * 2 ^ 8 + s3 := by
  have e1 : s0 * 2 ^ 24 ||| s1 * 2 ^ 16 = s0 * 2 ^ 24 + s1 * 2 ^ 16 := by
    have hor := Nat.mul_add_lt_is_or (show s1 * 2 ^ 16 < 2 ^ 24 by omega) s0
    rw [Nat.mul_comm (2 ^ 24) s0] at hor
    exact hor.symm
  have e2 : (s0 * 2 ^ 24 + s1 * 2 ^ 16) ||| s2 * 2 ^ 8
      = s0 * 2 ^ 24 + s1 * 2 ^ 16 + s2 * 2 ^ 8 := by
    have hor := Nat.mul_add_lt_is_or (show s2 * 2 ^ 8 < 2 ^ 16 by omega) (s0 * 2 ^ 8 + s1)
    have e : 2 ^ 16 * (s0 * 2 ^ 8 + s1) = s0 * 2 ^ 24 + s1 * 2 ^ 16 := by omega
    rw [e] at hor
    exact hor.symm
  have e3 : (s0 * 2 ^ 24 + s1 * 2 ^ 16 + s2 * 2 ^ 8) ||| s3
      = s0 * 2 ^ 24 + s1 * 2 ^ 16 + s2 * 2 ^ 8 + s3 := by
    have hor := Nat.mul_add_lt_is_or (show s3 < 2 ^ 8 by omega) (s0 * 2 ^ 16 + s1 * 2 ^ 8 + s2)
    have e : 2 ^ 8 * (s0 * 2 ^ 16 + s1 * 2 ^ 8 + s2) = s0 * 2 ^ 24 + s1 * 2 ^ 16 + s2 * 2 ^ 8 := by
      omega
    rw [e] at hor
    exact hor.symm
  rw [Nat.shiftLeft_eq, Nat.shiftLeft_eq, Nat.shiftLeft_eq, e1, e2, e3]

theorem pack_bytes_lt (s0 s1 s2 s3 : Nat) (h0 : s0 < 256) (h1 : s1 < 256) (h2 : s2 < 256)
    (h3 : s3 < 256) : s0 * 2 ^ 24 + s1 * 2 ^ 16 + s2 * 2 ^ 8 + s3 < 2 ^ 32 := by
  omega

/-- On 32-bit words the shift-and-or rotation of the source is the circular rotation. -/
theorem rotl_eq_specRotl (B n : Nat) (hB : B < 2 ^ 32) (hn : n ≤ 32) :
    SM4.rotl B n = specRotl B n := by
  unfold SM4.rotl specRotl
  have hp : (2 : Nat) ^ 32 = 2 ^ n * 2 ^ (32 - n) := by
    rw [← Nat.pow_add]
    congr 1
    omega
  have hlt : B / 2 ^ (32 - n) < 2 ^ n := by
    apply Nat.div_lt_of_lt_mul
    rw [Nat.mul_comm, ← hp]
    exact hB
  have hmod : B * 2 ^ n % 2 ^ 32 = 2 ^ n * (B % 2 ^ (32 - n)) := by
    rw [hp, Nat.mul_comm B, Nat.mul_mod_mul_left]
  rw [Nat.shiftLeft_eq, Nat.shiftRight_eq_div_pow, hmod]
  exact (Nat.mul_add_lt_is_or hlt _).symm

theorem rotateLeft_eq_rotl (value shiftBits : Nat) :
    TTable.rotateLeft value shiftBits = SM4.rotl value shiftBits := rfl

theorem T_prime_eq_specTPrime (A : Nat) : SM4.T_prime A = specTPrime A := by
  have hB := pack_bytes_lt _ _ _ _ (sbox_getD_lt ((A >>> 24) % 2 ^ 8))
    (sbox_getD_lt ((A >>> 16) % 2 ^ 8)) (sbox_getD_lt ((A >>> 8) % 2 ^ 8)) (sbox_getD_lt (A % 2 ^ 8))
  have hpk := pack_bytes (SM4.SM4_SBOX.getD ((A >>> 24) % 2 ^ 8) 0) _ _ _
    (sbox_getD_lt ((A >>> 16) % 2 ^ 8)) (sbox_getD_lt ((A >>> 8) % 2 ^ 8)) (sbox_getD_lt (A % 2 ^ 8))
  have hunf : SM4.T_prime A =
      (let B := (SM4.SM4_SBOX.getD ((A >>> 24) % 2 ^ 8) 0 <<< 24
        ||| SM4.SM4_SBOX.getD ((A >>> 16) % 2 ^ 8) 0 <<< 16
        ||| SM4.SM4_SBOX.getD ((A >>> 8) % 2 ^ 8) 0 <<< 8
        ||| SM4.SM4_SBOX.getD (A % 2 ^ 8) 0) % 2 ^ 32
      B ^^^ SM4.rotl B 13 ^^^ SM4.rotl B 23) := rfl
  rw [hunf]
  simp only
  rw [hpk, Nat.mod_eq_of_lt hB, rotl_eq_specRotl _ 13 hB (by omega),
    rotl_eq_specRotl _ 23 hB (by omega)]
  unfold specTPrime
  simp only [Nat.shiftRight_eq_div_pow]
  norm_num

theorem tPrimeTransform_eq_T_prime (A : Nat) : TTable.tPrimeTransform A = SM4.T_prime A := by
  have hunf : TTable.tPrimeTransform A =
      (let merged := ((TTable.SM4_SBOX.getD ((A >>> 24) % 2 ^ 8) 0 <<< 24) % 2 ^ 32)
        ||| ((TTable.SM4_SBOX.getD ((A >>> 16) % 2 ^ 8) 0 <<< 16) % 2 ^ 32)
        ||| ((TTable.SM4_SBOX.getD ((A >>> 8) % 2 ^ 8) 0 <<< 8) % 2 ^ 32)
        ||| TTable.SM4_SBOX.getD (A % 2 ^ 8) 0
      merged ^^^ TTable.rotateLeft merged 13 ^^^ TTable.rotateLeft merged 23) := rfl
  have hunf' : SM4.T_prime A =
      (let B := (SM4.SM4_SBOX.getD ((A >>> 24) % 2 ^ 8) 0 <<< 24
        ||| SM4.SM4_SBOX.getD ((A >>> 16) % 2 ^ 8) 0 <<< 16
        ||| SM4.SM4_SBOX.getD ((A >>> 8) % 2 ^ 8) 0 <<< 8
        ||| SM4.SM4_SBOX.getD (A % 2 ^ 8) 0) % 2 ^ 32
      B ^^^ SM4.rotl B 13 ^^^ SM4.rotl B 23) := rfl
  have hs : TTable.SM4_SBOX = SM4.SM4_SBOX := rfl
  have hB := pack_bytes_lt _ _ _ _ (sbox_getD_lt ((A >>> 24) % 2 ^ 8))
    (sbox_getD_lt ((A >>> 16) % 2 ^ 8)) (sbox_getD_lt ((A >>> 8) % 2 ^ 8)) (sbox_getD_lt (A % 2 ^ 8))
  have hpk := pack_bytes (SM4.SM4_SBOX.getD ((A >>> 24) % 2 ^ 8) 0) _ _ _
    (sbox_getD_lt ((A >>> 16) % 2 ^ 8)) (sbox_getD_lt ((A >>> 8) % 2 ^ 8)) (sbox_getD_lt (A % 2 ^ 8))
  have m0 : (SM4.SM4_SBOX.getD ((A >>> 24) % 2 ^ 8) 0 <<< 24) % 2 ^ 32
      = SM4.SM4_SBOX.getD ((A >>> 24) % 2 ^ 8) 0 <<< 24 := by
    have := sbox_getD_lt ((A >>> 24) % 2 ^ 8)
    rw [Nat.shiftLeft_eq]
    omega
  have m1 : (SM4.SM4_SBOX.getD ((A >>> 16) % 2 ^ 8) 0 <<< 16) % 2 ^ 32
      = SM4.SM4_SBOX.getD ((A >>> 16) % 2 ^ 8) 0 <<< 16 := by
    have := sbox_getD_lt ((A >>> 16) % 2 ^ 8)
    rw [Nat.shiftLeft_eq]
    omega
  have m2 : (SM4.SM4_SBOX.getD ((A >>> 8) % 2 ^ 8) 0 <<< 8) % 2 ^ 32
      = SM4.SM4_SBOX.getD ((A >>> 8) % 2 ^ 8) 0 <<< 8 := by
    have := sbox_getD_lt ((A >>> 8) % 2 ^ 8)
    rw [Nat.shiftLeft_eq]
    omega
  rw [hunf, hunf', hs]
  simp only
  rw [m0, m1, m2, hpk, Nat.mod_eq_of_lt hB]
  rfl

theorem tPrimeTransform_eq_specTPrime (A : Nat) : TTable.tPrimeTransform A = specTPrime A := by
  rw [tPrimeTransform_eq_T_prime, T_prime_eq_specTPrime]

/-- The buffer `K` of `key_schedule` after its first loop. -/
theorem key_init_eq (key : List Nat) :
    (List.range 4).foldl (fun K i => K.set i (key.getD i 0 ^^^ SM4.FK.getD i 0))
        (List.replicate 36 0)
      = [key.getD 0 0 ^^^ SM4.FK.getD 0 0, key.getD 1 0 ^^^ SM4.FK.getD 1 0,
         key.getD 2 0 ^^^ SM4.FK.getD 2 0, key.getD 3 0 ^^^ SM4.FK.getD 3 0]
        ++ List.replicate 32 0 := rfl

theorem specK_eq_feedbackSeq (key : List Nat) (n : Nat) :
    specK key n = feedbackSeq (fun i x => SM4.T_prime (x ^^^ SM4.CK.getD i 0))
      ([key.getD 0 0 ^^^ SM4.FK.getD 0 0, key.getD 1 0 ^^^ SM4.FK.getD 1 0,
         key.getD 2 0 ^^^ SM4.FK.getD 2 0, key.getD 3 0 ^^^ SM4.FK.getD 3 0]
        ++ List.replicate 32 0) n := by
  induction n using Nat.strong_induction_on with
  | _ n ih =>
    by_cases h4 : n < 4
    · interval_cases n <;> rfl
    · obtain ⟨i, rfl⟩ : ∃ i, n = i + 4 := ⟨n - 4, by omega⟩
      rw [feedbackSeq_add_four, ← ih i (by omega), ← ih (i + 1) (by omega),
        ← ih (i + 2) (by omega), ← ih (i + 3) (by omega), T_prime_eq_specTPrime]
      simp [specK]

/-- A 36-word buffer from which words `4 .. 35` are copied out. -/
theorem memcpy_drop_four (K : List Nat) (hK : K.length = 36) (u : Nat → Nat)
    (hu : ∀ j, j < 36 → K.getD j 0 = u j) :
    memcpy (List.replicate 32 0) (K.drop 4) 32 = (List.range 32).map (fun i => u (i + 4)) := by
  unfold memcpy
  have hd : (List.replicate 32 (0 : Nat)).drop 32 = [] := rfl
  rw [hd, List.append_nil]
  apply List.ext_getElem
  · simp [hK]
  · intro i h1 h2
    have hi : i < 32 := by simpa using h2
    have := hu (i + 4) (by omega)
    rw [List.getD_eq_getElem _ _ (by omega)] at this
    simp [← this, Nat.add_comm]

theorem key_schedule_eq_specK (key : List Nat) :
    SM4.key_schedule key = (List.range 32).map (fun i => specK key (i + 4)) := by
  unfold SM4.key_schedule
  simp only
  rw [key_init_eq]
  have hf := foldl_feedback (fun i x => SM4.T_prime (x ^^^ SM4.CK.getD i 0))
    ([key.getD 0 0 ^^^ SM4.FK.getD 0 0, key.getD 1 0 ^^^ SM4.FK.getD 1 0,
         key.getD 2 0 ^^^ SM4.FK.getD 2 0, key.getD 3 0 ^^^ SM4.FK.getD 3 0]
        ++ List.replicate 32 0) (by rfl) 32 (le_refl 32)
  exact memcpy_drop_four _ hf.1 (specK key) (fun j hj => by
    rw [specK_eq_feedbackSeq]; exact hf.2 j (by omega))

theorem generateRoundKeys_eq_specK (key : List Nat) :
    TTable.generateRoundKeys key = (List.range 32).map (fun i => specK key (i + 4)) := by
  unfold TTable.generateRoundKeys
  simp only
  have hinit : (List.range 4).foldl (fun ik i => ik.set i (key.getD i 0 ^^^ TTable.SM4_FK.getD i 0))
        (List.replicate 36 0)
      = [key.getD 0 0 ^^^ SM4.FK.getD 0 0, key.getD 1 0 ^^^ SM4.FK.getD 1 0,
         key.getD 2 0 ^^^ SM4.FK.getD 2 0, key.getD 3 0 ^^^ SM4.FK.getD 3 0]
        ++ List.replicate 32 0 := rfl
  rw [hinit]
  have hf := foldl_feedback (fun i x => TTable.tPrimeTransform (x ^^^ TTable.SM4_CK.getD i 0))
    ([key.getD 0 0 ^^^ SM4.FK.getD 0 0, key.getD 1 0 ^^^ SM4.FK.getD 1 0,
         key.getD 2 0 ^^^ SM4.FK.getD 2 0, key.getD 3 0 ^^^ SM4.FK.getD 3 0]
        ++ List.replicate 32 0) (by rfl) 32 (le_refl 32)
  have hF : (fun i x => TTable.tPrimeTransform (x ^^^ TTable.SM4_CK.getD i 0))
      = (fun i x => SM4.T_prime (x ^^^ SM4.CK.getD i 0)) := by
    funext i x
    rw [tPrimeTransform_eq_T_prime]
    rfl
  rw [hF] at hf
  have hfold : (List.range 32).foldl
        (fun ik i => ik.set (i + 4)
          (ik.getD i 0 ^^^ TTable.tPrimeTransform
            (ik.getD (i + 1) 0 ^^^ ik.getD (i + 2) 0 ^^^ ik.getD (i + 3) 0 ^^^ TTable.SM4_CK.getD i 0)))
        ([key.getD 0 0 ^^^ SM4.FK.getD 0 0, key.getD 1 0 ^^^ SM4.FK.getD 1 0,
         key.getD 2 0 ^^^ SM4.FK.getD 2 0, key.getD 3 0 ^^^ SM4.FK.getD 3 0]
        ++ List.replicate 32 0)
      = (List.range 32).foldl
        (fun X i => X.set (i + 4)
          ((X.getD i 0) ^^^ (fun i x => SM4.T_prime (x ^^^ SM4.CK.getD i 0)) i
            (X.getD (i + 1) 0 ^^^ X.getD (i + 2) 0 ^^^ X.getD (i + 3) 0)))
        ([key.getD 0 0 ^^^ SM4.FK.getD 0 0, key.getD 1 0 ^^^ SM4.FK.getD 1 0,
         key.getD 2 0 ^^^ SM4.FK.getD 2 0, key.getD 3 0 ^^^ SM4.FK.getD 3 0]
        ++ List.replicate 32 0) := by
    apply List.foldl_ext
    intro X i _
    simp only [tPrimeTransform_eq_T_prime]
    rfl
  rw [hfold]
  exact memcpy_drop_four _ hf.1 (specK key) (fun j hj => by
    rw [specK_eq_feedbackSeq]; exact hf.2 j (by omega))

/-! ## The lookup tables -/

/-- Tables of 256 words each. -/
theorem zero_lengths : TTable.TBoxes.zero.TBox0.length = 256 ∧ TTable.TBoxes.zero.TBox1.length = 256 ∧
    TTable.TBoxes.zero.TBox2.length = 256 ∧ TTable.TBoxes.zero.TBox3.length = 256 :=
  ⟨List.length_replicate _ _, List.length_replicate _ _, List.length_replicate _ _,
    List.length_replicate _ _⟩

/-- After `n ≤ 256` iterations of the loop of `initTBox` the tables keep their length and their
entries below `n` hold the words computed from the S-box. -/
theorem foldl_initTBoxStep (tb : TTable.TBoxes)
    (hlen : tb.TBox0.length = 256 ∧ tb.TBox1.length = 256 ∧ tb.TBox2.length = 256 ∧
      tb.TBox3.length = 256) (n : Nat) (hn : n ≤ 256) :
    (((List.range n).foldl TTable.initTBoxStep tb).TBox0.length = 256 ∧
      ((List.range n).foldl TTable.initTBoxStep tb).TBox1.length = 256 ∧
      ((List.range n).foldl TTable.initTBoxStep tb).TBox2.length = 256 ∧
      ((List.range n).foldl TTable.initTBoxStep tb).TBox3.length = 256) ∧
    ∀ j, j < n →
      ((List.range n).foldl TTable.initTBoxStep tb).TBox0.getD j 0 = tboxBase j ∧
      ((List.range n).foldl TTable.initTBoxStep tb).TBox1.getD j 0
        = TTable.rotateLeft (tboxBase j) 8 ∧
      ((List.range n).foldl TTable.initTBoxStep tb).TBox2.getD j 0
        = TTable.rotateLeft (tboxBase j) 16 ∧
      ((List.range n).foldl TTable.initTBoxStep tb).TBox3.getD j 0
        = TTable.rotateLeft (tboxBase j) 24 := by
  induction n with
  | zero => exact ⟨by simpa using hlen, fun j hj => absurd hj (Nat.not_lt_zero j)⟩
  | succ n ih =>
    obtain ⟨⟨l0, l1, l2, l3⟩, hget⟩ := ih (by omega)
    rw [List.range_succ, List.foldl_append]
    simp only [List.foldl_cons, List.foldl_nil, TTable.initTBoxStep]
    refine ⟨⟨by rw [List.length_set]; exact l0, by rw [List.length_set]; exact l1,
      by rw [List.length_set]; exact l2, by rw [List.length_set]; exact l3⟩, fun j hj => ?_⟩
    by_cases hjn : j = n
    · subst hjn
      rw [getD_set_self_lt _ _ _ (by omega), getD_set_self_lt _ _ _ (by omega),
        getD_set_self_lt _ _ _ (by omega), getD_set_self_lt _ _ _ (by omega)]
      exact ⟨rfl, rfl, rfl, rfl⟩
    · rw [getD_set_of_ne _ _ _ _ (Ne.symm hjn), getD_set_of_ne _ _ _ _ (Ne.symm hjn),
        getD_set_of_ne _ _ _ _ (Ne.symm hjn), getD_set_of_ne _ _ _ _ (Ne.symm hjn)]
      exact hget j (by omega)

theorem and_0xFF_lt (x : Nat) : x &&& 0xFF < 256 :=
  Nat.lt_of_le_of_lt Nat.and_le_right (by decide)

/-- Once `initTBox` has run on tables of 256 words, the table lookup computes `lookupWord`. -/
theorem tTransformLookup_initTBox (tb : TTable.TBoxes)
    (hlen : tb.TBox0.length = 256 ∧ tb.TBox1.length = 256 ∧ tb.TBox2.length = 256 ∧
      tb.TBox3.length = 256) (value : Nat) :
    TTable.tTransformLookup (TTable.initTBox tb) value = lookupWord value := by
  have h := (foldl_initTBoxStep tb hlen 256 (le_refl 256)).2
  unfold TTable.tTransformLookup lookupWord TTable.initTBox
  rw [(h _ (and_0xFF_lt (value >>> 24))).1, (h _ (and_0xFF_lt (value >>> 16))).2.1,
    (h _ (and_0xFF_lt (value >>> 8))).2.2.1, (h _ (and_0xFF_lt value)).2.2.2]

theorem tTransformLookup_initTBox_zero :
    TTable.tTransformLookup (TTable.initTBox TTable.TBoxes.zero) = lookupWord :=
  funext (tTransformLookup_initTBox TTable.TBoxes.zero zero_lengths)

/-! ## Properties of the direct engine and of the table-accelerated engine -/

/-- C1: round trip of the direct implementation.  For every 4-word block `P` and every key `K`,
decrypting with `sm4_crypt` the encryption of `P` under the round keys `key_schedule K` gives `P`
back. -/
theorem sm4_crypt_roundtrip (P K : List Nat) (hP : P.length = 4) :
    SM4.sm4_crypt (SM4.sm4_crypt P (SM4.key_schedule K) true) (SM4.key_schedule K) false = P := by
  rw [sm4_crypt_eq_roundEngine, sm4_crypt_eq_roundEngine]
  exact roundEngine_roundtrip SM4.T P (SM4.key_schedule K) true hP

theorem sm4_crypt_roundtrip_witness :
    [0x01234567, 0x89abcdef, 0xfedcba98, 0x76543210].length = 4 ∧
    SM4.sm4_crypt
      (SM4.sm4_crypt [0x01234567, 0x89abcdef, 0xfedcba98, 0x76543210]
        (SM4.key_schedule [0x00112233, 0x44556677, 0x8899aabb, 0xccddeeff]) true)
      (SM4.key_schedule [0x00112233, 0x44556677, 0x8899aabb, 0xccddeeff]) false
      = [0x01234567, 0x89abcdef, 0xfedcba98, 0x76543210] :=
  ⟨rfl, sm4_crypt_roundtrip [0x01234567, 0x89abcdef, 0xfedcba98, 0x76543210]
    [0x00112233, 0x44556677, 0x8899aabb, 0xccddeeff] rfl⟩

/-- C2: known-answer vector of the direct implementation.  With plaintext and key both equal to
`01234567 89abcdef fedcba98 76543210`, `sm4_crypt` under `key_schedule` returns the ciphertext
`681edf34 d206965e 86b3e94f 536e4246` of the SM4 standard. -/
theorem sm4_crypt_known_answer :
    SM4.sm4_crypt [0x01234567, 0x89abcdef, 0xfedcba98, 0x76543210]
      (SM4.key_schedule [0x01234567, 0x89abcdef, 0xfedcba98, 0x76543210]) true
      = [0x681edf34, 0xd206965e, 0x86b3e94f, 0x536e4246] := by
  decide

/-- C3: at the word `0x00000001`, after `initTBox` has run on the zero-initialised tables, the
table lookup `tTransformLookup` returns `0x42051c42` while the direct transform `T` returns
`0x1c424205`: the two transforms are not value-equal. -/
theorem tTransformLookup_ne_T_at_one :
    TTable.tTransformLookup (TTable.initTBox TTable.TBoxes.zero) 0x00000001 = 0x42051c42 ∧
    SM4.T 0x00000001 = 0x1c424205 ∧
    TTable.tTransformLookup (TTable.initTBox TTable.TBoxes.zero) 0x00000001 ≠ SM4.T 0x00000001 := by
  have h1 : TTable.tTransformLookup (TTable.initTBox TTable.TBoxes.zero) 0x00000001 = 0x42051c42 := by
    rw [tTransformLookup_initTBox_zero]
    decide
  have h2 : SM4.T 0x00000001 = 0x1c424205 := by decide
  refine ⟨h1, h2, ?_⟩
  rw [h1, h2]
  decide

/-- C4: on the block `01234567 89abcdef fedcba98 76543210` with the round keys of the key
`01234567 89abcdef fedcba98 76543210`, in the encryption direction, the table-accelerated engine
`sm4Cipher` (tables filled by `initTBox`) and the direct engine `sm4_crypt` return different
blocks. -/
theorem sm4Cipher_ne_sm4_crypt_at_standard_vector :
    TTable.sm4Cipher (TTable.initTBox TTable.TBoxes.zero)
        [0x01234567, 0x89abcdef, 0xfedcba98, 0x76543210]
        (SM4.key_schedule [0x01234567, 0x89abcdef, 0xfedcba98, 0x76543210]) true
      ≠ SM4.sm4_crypt [0x01234567, 0x89abcdef, 0xfedcba98, 0x76543210]
        (SM4.key_schedule [0x01234567, 0x89abcdef, 0xfedcba98, 0x76543210]) true := by
  rw [sm4Cipher_eq_roundEngine, tTransformLookup_initTBox_zero]
  decide

/-- C5: with plaintext and key both equal to `01234567 89abcdef fedcba98 76543210`, after
`initTBox`, `sm4Cipher` under `generateRoundKeys` returns `609fbfeb 27a35344 e1d74add e27c71e3`,
which is not the ciphertext `681edf34 d206965e 86b3e94f 536e4246` of the SM4 standard. -/
theorem sm4Cipher_known_answer_mismatch :
    TTable.sm4Cipher (TTable.initTBox TTable.TBoxes.zero)
        [0x01234567, 0x89abcdef, 0xfedcba98, 0x76543210]
        (TTable.generateRoundKeys [0x01234567, 0x89abcdef, 0xfedcba98, 0x76543210]) true
      = [0x609fbfeb, 0x27a35344, 0xe1d74add, 0xe27c71e3] ∧
    TTable.sm4Cipher (TTable.initTBox TTable.TBoxes.zero)
        [0x01234567, 0x89abcdef, 0xfedcba98, 0x76543210]
        (TTable.generateRoundKeys [0x01234567, 0x89abcdef, 0xfedcba98, 0x76543210]) true
      ≠ [0x681edf34, 0xd206965e, 0x86b3e94f, 0x536e4246] := by
  have h1 : TTable.sm4Cipher (TTable.initTBox TTable.TBoxes.zero)
        [0x01234567, 0x89abcdef, 0xfedcba98, 0x76543210]
        (TTable.generateRoundKeys [0x01234567, 0x89abcdef, 0xfedcba98, 0x76543210]) true
      = [0x609fbfeb, 0x27a35344, 0xe1d74add, 0xe27c71e3] := by
    rw [sm4Cipher_eq_roundEngine, tTransformLookup_initTBox_zero]
    decide
  refine ⟨h1, ?_⟩
  rw [h1]
  decide

/-- C6: round trip of the table-accelerated implementation.  Whatever the tables held before,
once `initTBox` has run, for every 4-word block `P` and every key `K`, decrypting with `sm4Cipher`
the encryption of `P` under the round keys `generateRoundKeys K` gives `P` back. -/
theorem sm4Cipher_roundtrip (tb : TTable.TBoxes) (P K : List Nat) (hP : P.length = 4) :
    TTable.sm4Cipher (TTable.initTBox tb)
      (TTable.sm4Cipher (TTable.initTBox tb) P (TTable.generateRoundKeys K) true)
      (TTable.generateRoundKeys K) false = P := by
  rw [sm4Cipher_eq_roundEngine, sm4Cipher_eq_roundEngine]
  exact roundEngine_roundtrip _ P (TTable.generateRoundKeys K) true hP

theorem sm4Cipher_roundtrip_witness :
    [0x01234567, 0x89abcdef, 0xfedcba98, 0x76543210].length = 4 ∧
    TTable.sm4Cipher (TTable.initTBox TTable.TBoxes.zero)
      (TTable.sm4Cipher (TTable.initTBox TTable.TBoxes.zero)
        [0x01234567, 0x89abcdef, 0xfedcba98, 0x76543210]
        (TTable.generateRoundKeys [0x00112233, 0x44556677, 0x8899aabb, 0xccddeeff]) true)
      (TTable.generateRoundKeys [0x00112233, 0x44556677, 0x8899aabb, 0xccddeeff]) false
      = [0x01234567, 0x89abcdef, 0xfedcba98, 0x76543210] :=
  ⟨rfl, sm4Cipher_roundtrip TTable.TBoxes.zero [0x01234567, 0x89abcdef, 0xfedcba98, 0x76543210]
    [0x00112233, 0x44556677, 0x8899aabb, 0xccddeeff] rfl⟩

/-- C7: the key schedule matches its reference definition.  For every key, `key_schedule` returns
exactly the 32 words `K[4], ..., K[35]` of the specification's expansion sequence `specK`, in that
order, and `generateRoundKeys` returns the same 32 words. -/
theorem key_schedule_matches_reference (key : List Nat) :
    SM4.key_schedule key = (List.range 32).map (fun i => specK key (i + 4)) ∧
    TTable.generateRoundKeys key = (List.range 32).map (fun i => specK key (i + 4)) :=
  ⟨key_schedule_eq_specK key, generateRoundKeys_eq_specK key⟩

/-- C8: decryption is encryption with the round keys consumed in reverse order.  For every block
and all round-key arrays `rk`, `rk'` with `rk'[i] = rk[31 - i]` for `i = 0..31`,
`sm4_crypt block rk false = sm4_crypt block rk' true`. -/
theorem sm4_crypt_decrypt_eq_encrypt_reversed (block rk rk' : List Nat)
    (h : ∀ i, i < 32 → rk'.getD i 0 = rk.getD (31 - i) 0) :
    SM4.sm4_crypt block rk false = SM4.sm4_crypt block rk' true := by
  rw [sm4_crypt_eq_roundEngine, sm4_crypt_eq_roundEngine]
  exact roundEngine_reverse_keys SM4.T block rk rk' h

theorem sm4_crypt_decrypt_eq_encrypt_reversed_witness :
    (∀ i, i < 32 →
      ([32, 31, 30, 29, 28, 27, 26, 25, 24, 23, 22, 21, 20, 19, 18, 17, 16, 15, 14, 13, 12, 11, 10,
        9, 8, 7, 6, 5, 4, 3, 2, 1] : List Nat).getD i 0
      = ([1, 2, 3, 4, 5, 6, 7, 8, 9, 10, 11, 12, 13, 14, 15, 16, 17, 18, 19, 20, 21, 22, 23, 24, 25,
        26, 27, 28, 29, 30, 31, 32] : List Nat).getD (31 - i) 0) ∧
    SM4.sm4_crypt [0x01234567, 0x89abcdef, 0xfedcba98, 0x76543210]
      [1, 2, 3, 4, 5, 6, 7, 8, 9, 10, 11, 12, 13, 14, 15, 16, 17, 18, 19, 20, 21, 22, 23, 24, 25,
        26, 27, 28, 29, 30, 31, 32] false
    = SM4.sm4_crypt [0x01234567, 0x89abcdef, 0xfedcba98, 0x76543210]
      [32, 31, 30, 29, 28, 27, 26, 25, 24, 23, 22, 21, 20, 19, 18, 17, 16, 15, 14, 13, 12, 11, 10,
        9, 8, 7, 6, 5, 4, 3, 2, 1] true :=
  ⟨by decide, sm4_crypt_decrypt_eq_encrypt_reversed _ _ _ (by decide)⟩

set_option maxRecDepth 1000000 in
/-- C9: the S-box is a bijection on bytes.  The table has 256 entries, all below 256 and pairwise
distinct (equal images at two indices below 256 force equal indices), every byte value occurs in
it, and the table of `sm4.cpp` equals the table of `ttable.cpp` entry for entry. -/
theorem sbox_bijective :
    SM4.SM4_SBOX.length = 256 ∧
    (∀ a, a < 256 → SM4.SM4_SBOX.getD a 0 < 256) ∧
    (∀ a b, a < 256 → b < 256 → SM4.SM4_SBOX.getD a 0 = SM4.SM4_SBOX.getD b 0 → a = b) ∧
    (∀ y, y < 256 → ∃ a, a < 256 ∧ SM4.SM4_SBOX.getD a 0 = y) ∧
    SM4.SM4_SBOX = TTable.SM4_SBOX := by
  have hnd : SM4.SM4_SBOX.Nodup := by decide
  have hmem : ∀ y, y < 256 → y ∈ SM4.SM4_SBOX := by decide
  have hlen : SM4.SM4_SBOX.length = 256 := rfl
  refine ⟨hlen, fun a _ => sbox_getD_lt a, ?_, ?_, rfl⟩
  · intro a b ha hb hab
    rw [List.getD_eq_getElem SM4.SM4_SBOX 0 (show a < SM4.SM4_SBOX.length by omega),
      List.getD_eq_getElem SM4.SM4_SBOX 0 (show b < SM4.SM4_SBOX.length by omega)] at hab
    exact (List.Nodup.getElem_inj_iff hnd).mp hab
  · intro y hy
    obtain ⟨a, ha, hget⟩ := List.getElem_of_mem (hmem y hy)
    exact ⟨a, by omega, by rw [List.getD_eq_getElem _ _ ha]; exact hget⟩

/-- C10: boundary vector.  For the all-zero block and the all-zero key, `sm4_crypt` under
`key_schedule` returns `9f1f7bff 6f551138 4d943053 1e538fd3`, which is not the all-zero block. -/
theorem sm4_crypt_zero_vector_nonzero :
    SM4.sm4_crypt [0, 0, 0, 0] (SM4.key_schedule [0, 0, 0, 0]) true
      = [0x9f1f7bff, 0x6f551138, 0x4d943053, 0x1e538fd3] ∧
    SM4.sm4_crypt [0, 0, 0, 0] (SM4.key_schedule [0, 0, 0, 0]) true ≠ [0, 0, 0, 0] := by
  have h1 : SM4.sm4_crypt [0, 0, 0, 0] (SM4.key_schedule [0, 0, 0, 0]) true
      = [0x9f1f7bff, 0x6f551138, 0x4d943053, 0x1e538fd3] := by
    decide
  refine ⟨h1, ?_⟩
  rw [h1]
  decide

/-! ## Contents of the tables after initialisation -/

theorem list_ext_getD (l l' : List Nat) (n : Nat) (hl : l.length = n) (hl' : l'.length = n)
    (h : ∀ j, j < n → l.getD j 0 = l'.getD j 0) : l = l' := by
  apply List.ext_getElem (by omega)
  intro j h1 h2
  have hj := h j (by omega)
  rwa [List.getD_eq_getElem _ _ h1, List.getD_eq_getElem _ _ h2] at hj

theorem rotl_lt (x n : Nat) (hx : x < 2 ^ 32) : SM4.rotl x n < 2 ^ 32 := by
  unfold SM4.rotl
  apply Nat.or_lt_two_pow (Nat.mod_lt _ (by norm_num))
  rw [Nat.shiftRight_eq_div_pow]
  exact Nat.lt_of_le_of_lt (Nat.div_le_self _ _) hx

theorem linearTransformL_lt (x : Nat) (hx : x < 2 ^ 32) : TTable.linearTransformL x < 2 ^ 32 := by
  unfold TTable.linearTransformL
  simp only [rotateLeft_eq_rotl]
  exact Nat.xor_lt_two_pow (Nat.xor_lt_two_pow (Nat.xor_lt_two_pow (Nat.xor_lt_two_pow hx
    (rotl_lt x 2 hx)) (rotl_lt x 10 hx)) (rotl_lt x 18 hx)) (rotl_lt x 24 hx)

theorem linearTransformL_eq_specL (x : Nat) (hx : x < 2 ^ 32) :
    TTable.linearTransformL x = specL x := by
  unfold TTable.linearTransformL specL
  simp only [rotateLeft_eq_rotl]
  rw [rotl_eq_specRotl x 2 hx (by omega), rotl_eq_specRotl x 10 hx (by omega),
    rotl_eq_specRotl x 18 hx (by omega), rotl_eq_specRotl x 24 hx (by omega)]

theorem sbox_shift_eq (b : Nat) :
    (TTable.SM4_SBOX.getD b 0 <<< 24) % 2 ^ 32 = TTable.SM4_SBOX.getD b 0 * 2 ^ 24 := by
  have hb : TTable.SM4_SBOX.getD b 0 < 256 := sbox_getD_lt b
  rw [Nat.shiftLeft_eq]
  omega

theorem tboxBase_lt (b : Nat) : tboxBase b < 2 ^ 32 :=
  linearTransformL_lt _ (Nat.mod_lt _ (by norm_num))

theorem tboxBase_eq_specL (b : Nat) : tboxBase b = specL (TTable.SM4_SBOX.getD b 0 * 2 ^ 24) := by
  unfold tboxBase
  rw [linearTransformL_eq_specL _ (Nat.mod_lt _ (by norm_num)), sbox_shift_eq]

/-- The state of the tables after `initTBox`, whatever tables of 256 words it started from. -/
theorem initTBox_eq (tb : TTable.TBoxes) (hlen : tablesSized tb) :
    TTable.initTBox tb =
      { TBox0 := (List.range 256).map tboxBase,
        TBox1 := (List.range 256).map (fun b => TTable.rotateLeft (tboxBase b) 8),
        TBox2 := (List.range 256).map (fun b => TTable.rotateLeft (tboxBase b) 16),
        TBox3 := (List.range 256).map (fun b => TTable.rotateLeft (tboxBase b) 24) } := by
  obtain ⟨⟨l0, l1, l2, l3⟩, hget⟩ := foldl_initTBoxStep tb hlen 256 (le_refl 256)
  have hmap : ∀ (f : Nat → Nat) (j : Nat), j < 256 → ((List.range 256).map f).getD j 0 = f j := by
    intro f j hj
    rw [List.getD_eq_getElem _ _ (by simpa using hj)]
    simp
  have e0 : (TTable.initTBox tb).TBox0 = (List.range 256).map tboxBase :=
    list_ext_getD _ _ 256 l0 (by simp) (fun j hj => by rw [hmap _ j hj]; exact (hget j hj).1)
  have e1 : (TTable.initTBox tb).TBox1
      = (List.range 256).map (fun b => TTable.rotateLeft (tboxBase b) 8) :=
    list_ext_getD _ _ 256 l1 (by simp) (fun j hj => by rw [hmap _ j hj]; exact (hget j hj).2.1)
  have e2 : (TTable.initTBox tb).TBox2
      = (List.range 256).map (fun b => TTable.rotateLeft (tboxBase b) 16) :=
    list_ext_getD _ _ 256 l2 (by simp) (fun j hj => by rw [hmap _ j hj]; exact (hget j hj).2.2.1)
  have e3 : (TTable.initTBox tb).TBox3
      = (List.range 256).map (fun b => TTable.rotateLeft (tboxBase b) 24) :=
    list_ext_getD _ _ 256 l3 (by simp) (fun j hj => by rw [hmap _ j hj]; exact (hget j hj).2.2.2)
  rw [← e0, ← e1, ← e2, ← e3]

theorem initTBox_sized (tb : TTable.TBoxes) (hlen : tablesSized tb) :
    tablesSized (TTable.initTBox tb) :=
  (foldl_initTBoxStep tb hlen 256 (le_refl 256)).1

/-! ## The table lookup and the direct transform -/

theorem rotl_xor (x y n : Nat) (hx : x < 2 ^ 32) (hy : y < 2 ^ 32) (hn : n ≤ 32) :
    SM4.rotl (x ^^^ y) n = SM4.rotl x n ^^^ SM4.rotl y n := by
  apply Nat.eq_of_testBit_eq
  intro i
  simp only [SM4.rotl, Nat.testBit_or, Nat.testBit_xor, Nat.testBit_mod_two_pow,
    Nat.testBit_shiftLeft, Nat.testBit_shiftRight]
  by_cases h : n ≤ i
  · have hp : (2 : Nat) ^ 32 ≤ 2 ^ (32 - n + i) := Nat.pow_le_pow_right (by norm_num) (by omega)
    have hx' : x.testBit (32 - n + i) = false := Nat.testBit_lt_two_pow (Nat.lt_of_lt_of_le hx hp)
    have hy' : y.testBit (32 - n + i) = false := Nat.testBit_lt_two_pow (Nat.lt_of_lt_of_le hy hp)
    have hd : decide (i ≥ n) = true := by simpa using h
    rw [hx', hy', hd]
    cases decide (i < 32) <;> simp
  · have hd : decide (i ≥ n) = false := by simpa using h
    rw [hd]
    simp

theorem linearTransformL_xor (x y : Nat) (hx : x < 2 ^ 32) (hy : y < 2 ^ 32) :
    TTable.linearTransformL (x ^^^ y) = TTable.linearTransformL x ^^^ TTable.linearTransformL y := by
  unfold TTable.linearTransformL
  simp only [rotateLeft_eq_rotl]
  rw [rotl_xor x y 2 hx hy (by omega), rotl_xor x y 10 hx hy (by omega),
    rotl_xor x y 18 hx hy (by omega), rotl_xor x y 24 hx hy (by omega)]
  ac_rfl

/-- A multiple of `2 ^ i` and a number below `2 ^ i` have no bit in common. -/
theorem mul_add_lt_is_xor (a b i : Nat) (hb : b < 2 ^ i) : 2 ^ i * a + b = 2 ^ i * a ^^^ b := by
  rw [Nat.mul_add_lt_is_or hb a]
  apply Nat.eq_of_testBit_eq
  intro j
  rw [Nat.testBit_or, Nat.testBit_xor, Nat.testBit_mul_pow_two]
  by_cases h : i ≤ j
  · have hb' : b.testBit j = false :=
      Nat.testBit_lt_two_pow (Nat.lt_of_lt_of_le hb (Nat.pow_le_pow_right (by norm_num) h))
    rw [hb']
    simp
  · have hd : decide (j ≥ i) = false := by simpa using h
    rw [hd]
    simp

theorem pack_bytes_xor (s0 s1 s2 s3 : Nat) (h1 : s1 < 256) (h2 : s2 < 256) (h3 : s3 < 256) :
    s0 * 2 ^ 24 + s1 * 2 ^ 16 + s2 * 2 ^ 8 + s3
      = s0 <<< 24 ^^^ s1 <<< 16 ^^^ s2 <<< 8 ^^^ s3 := by
  have e1 : s0 * 2 ^ 24 + s1 * 2 ^ 16 = s0 * 2 ^ 24 ^^^ s1 * 2 ^ 16 := by
    have hx := mul_add_lt_is_xor s0 (s1 * 2 ^ 16) 24 (by omega)
    rwa [Nat.mul_comm (2 ^ 24) s0] at hx
  have e2 : s0 * 2 ^ 24 + s1 * 2 ^ 16 + s2 * 2 ^ 8
      = (s0 * 2 ^ 24 + s1 * 2 ^ 16) ^^^ s2 * 2 ^ 8 := by
    have hx := mul_add_lt_is_xor (s0 * 2 ^ 8 + s1) (s2 * 2 ^ 8) 16 (by omega)
    have e : 2 ^ 16 * (s0 * 2 ^ 8 + s1) = s0 * 2 ^ 24 + s1 * 2 ^ 16 := by omega
    rwa [e] at hx
  have e3 : s0 * 2 ^ 24 + s1 * 2 ^ 16 + s2 * 2 ^ 8 + s3
      = (s0 * 2 ^ 24 + s1 * 2 ^ 16 + s2 * 2 ^ 8) ^^^ s3 := by
    have hx := mul_add_lt_is_xor (s0 * 2 ^ 16 + s1 * 2 ^ 8 + s2) s3 8 (by omega)
    have e : 2 ^ 8 * (s0 * 2 ^ 16 + s1 * 2 ^ 8 + s2) = s0 * 2 ^ 24 + s1 * 2 ^ 16 + s2 * 2 ^ 8 := by
      omega
    rwa [e] at hx
  rw [e3, e2, e1, Nat.shiftLeft_eq, Nat.shiftLeft_eq, Nat.shiftLeft_eq]

set_option maxRecDepth 100000 in
/-- Rotating a table entry moves the S-box byte: the three rotated tables hold `L` of the byte in
the lowest, the second-lowest and the second-highest position. -/
theorem rotateLeft_base (s : Nat) (hs : s < 256) :
    TTable.rotateLeft (TTable.linearTransformL ((s <<< 24) % 2 ^ 32)) 8
      = TTable.linearTransformL s ∧
    TTable.rotateLeft (TTable.linearTransformL ((s <<< 24) % 2 ^ 32)) 16
      = TTable.linearTransformL (s <<< 8) ∧
    TTable.rotateLeft (TTable.linearTransformL ((s <<< 24) % 2 ^ 32)) 24
      = TTable.linearTransformL (s <<< 16) := by
  revert s
  decide

theorem and_0xFF_eq_mod (x : Nat) : x &&& 0xFF = x % 256 :=
  Nat.and_pow_two_sub_one_eq_mod x 8

theorem T_unfold (A : Nat) :
    SM4.T A = TTable.linearTransformL
      ((SM4.SM4_SBOX.getD ((A >>> 24) % 2 ^ 8) 0 <<< 24
        ||| SM4.SM4_SBOX.getD ((A >>> 16) % 2 ^ 8) 0 <<< 16
        ||| SM4.SM4_SBOX.getD ((A >>> 8) % 2 ^ 8) 0 <<< 8
        ||| SM4.SM4_SBOX.getD (A % 2 ^ 8) 0) % 2 ^ 32) := rfl

/-- The direct transform on a word given by its four bytes. -/
theorem T_of_bytes (A b0 b1 b2 b3 : Nat) (h0 : b0 < 256) (h1 : b1 < 256) (h2 : b2 < 256)
    (h3 : b3 < 256) (hA : A = b0 * 2 ^ 24 + b1 * 2 ^ 16 + b2 * 2 ^ 8 + b3) :
    SM4.T A = TTable.linearTransformL (SM4.SM4_SBOX.getD b0 0 <<< 24)
      ^^^ TTable.linearTransformL (SM4.SM4_SBOX.getD b1 0 <<< 16)
      ^^^ TTable.linearTransformL (SM4.SM4_SBOX.getD b2 0 <<< 8)
      ^^^ TTable.linearTransformL (SM4.SM4_SBOX.getD b3 0) := by
  have e0 : (A >>> 24) % 2 ^ 8 = b0 := by rw [Nat.shiftRight_eq_div_pow]; omega
  have e1 : (A >>> 16) % 2 ^ 8 = b1 := by rw [Nat.shiftRight_eq_div_pow]; omega
  have e2 : (A >>> 8) % 2 ^ 8 = b2 := by rw [Nat.shiftRight_eq_div_pow]; omega
  have e3 : A % 2 ^ 8 = b3 := by omega
  rw [T_unfold, e0, e1, e2, e3]
  have s0 := sbox_getD_lt b0
  have s1 := sbox_getD_lt b1
  have s2 := sbox_getD_lt b2
  have s3 := sbox_getD_lt b3
  generalize SM4.SM4_SBOX.getD b0 0 = t0 at *
  generalize SM4.SM4_SBOX.getD b1 0 = t1 at *
  generalize SM4.SM4_SBOX.getD b2 0 = t2 at *
  generalize SM4.SM4_SBOX.getD b3 0 = t3 at *
  rw [pack_bytes t0 t1 t2 t3 s1 s2 s3, Nat.mod_eq_of_lt (pack_bytes_lt t0 t1 t2 t3 s0 s1 s2 s3),
    pack_bytes_xor t0 t1 t2 t3 s1 s2 s3]
  have l0 : t0 <<< 24 < 2 ^ 32 := by rw [Nat.shiftLeft_eq]; omega
  have l1 : t1 <<< 16 < 2 ^ 32 := by rw [Nat.shiftLeft_eq]; omega
  have l2 : t2 <<< 8 < 2 ^ 32 := by rw [Nat.shiftLeft_eq]; omega
  have l3 : t3 < 2 ^ 32 := by omega
  rw [linearTransformL_xor _ _ (Nat.xor_lt_two_pow (Nat.xor_lt_two_pow l0 l1) l2) l3,
    linearTransformL_xor _ _ (Nat.xor_lt_two_pow l0 l1) l2, linearTransformL_xor _ _ l0 l1]

/-- The table lookup after initialisation is the direct transform of the word with its second
and fourth byte exchanged. -/
theorem lookupWord_eq_T_swap (value : Nat) :
    lookupWord value = SM4.T (swapSecondAndLastByte value) := by
  have hT := T_of_bytes (swapSecondAndLastByte value) (value / 2 ^ 24 % 256) (value % 256)
    (value / 2 ^ 8 % 256) (value / 2 ^ 16 % 256) (Nat.mod_lt _ (by norm_num))
    (Nat.mod_lt _ (by norm_num)) (Nat.mod_lt _ (by norm_num)) (Nat.mod_lt _ (by norm_num)) rfl
  rw [hT]
  unfold lookupWord tboxBase
  simp only [and_0xFF_eq_mod, Nat.shiftRight_eq_div_pow]
  have hs : TTable.SM4_SBOX = SM4.SM4_SBOX := rfl
  rw [hs]
  have s0 := sbox_getD_lt (value / 2 ^ 24 % 256)
  have s1 := sbox_getD_lt (value / 2 ^ 16 % 256)
  have s2 := sbox_getD_lt (value / 2 ^ 8 % 256)
  have s3 := sbox_getD_lt (value % 256)
  rw [(rotateLeft_base _ s1).1, (rotateLeft_base _ s2).2.1, (rotateLeft_base _ s3).2.2]
  have m0 : (SM4.SM4_SBOX.getD (value / 2 ^ 24 % 256) 0 <<< 24) % 2 ^ 32
      = SM4.SM4_SBOX.getD (value / 2 ^ 24 % 256) 0 <<< 24 := by
    rw [Nat.shiftLeft_eq]
    omega
  rw [m0]
  ac_rfl

/-! ## The checked engine -/

theorem sm4_crypt_checked_eq_roundEngineChecked (block rk : List Nat) (enc : Bool) :
    SM4.Checked.sm4_crypt block rk enc = roundEngineChecked SM4.Checked.T block rk enc := rfl

theorem sm4Cipher_checked_eq_roundEngineChecked (tb : TTable.TBoxes) (block rk : List Nat)
    (enc : Bool) :
    TTable.Checked.sm4Cipher tb block rk enc
      = roundEngineChecked (TTable.Checked.tTransformLookup tb) block rk enc := rfl

theorem bind_ok_eq {α β : Type} (a : α) (f : α → Except Fault β) :
    (Except.ok a >>= f) = f a := rfl

theorem bind_error_eq {α β : Type} (e : Fault) (f : α → Except Fault β) :
    ((Except.error e : Except Fault α) >>= f) = Except.error e := rfl

theorem pure_eq_ok {α : Type} (a : α) : (pure a : Except Fault α) = Except.ok a := rfl

theorem readAt_ok (a : List Nat) (i : Nat) (h : i < a.length) :
    readAt a i = Except.ok (a.getD i 0) := by
  simp [readAt, h]

theorem readAt_error (a : List Nat) (i : Nat) (h : a.length ≤ i) :
    readAt a i = Except.error Fault.OutOfBounds := by
  simp [readAt, Nat.not_lt.mpr h]

theorem writeAt_ok (a : List Nat) (i v : Nat) (h : i < a.length) :
    writeAt a i v = Except.ok (a.set i v) := by
  simp [writeAt, h]

/-- A checked loop whose every step succeeds and keeps an invariant returns the result of the
unchecked loop. -/
theorem foldlM_ok {σ : Type} (stepC : σ → Nat → Except Fault σ) (step : σ → Nat → σ)
    (P : σ → Prop) (l : List Nat)
    (hstep : ∀ s i, i ∈ l → P s → stepC s i = Except.ok (step s i) ∧ P (step s i))
    (s0 : σ) (h0 : P s0) :
    l.foldlM stepC s0 = Except.ok (l.foldl step s0) ∧ P (l.foldl step s0) := by
  induction l generalizing s0 with
  | nil => exact ⟨rfl, h0⟩
  | cons i l ih =>
    obtain ⟨hs, hP⟩ := hstep s0 i (List.mem_cons_self i l) h0
    rw [List.foldlM_cons, hs, bind_ok_eq, List.foldl_cons]
    exact ih (fun s j hj hs' => hstep s j (List.mem_cons_of_mem i hj) hs') _ hP

set_option maxRecDepth 100000 in
theorem sbox_length : SM4.SM4_SBOX.length = 256 := rfl

/-- The S-box substitution loop of `T` and `T_prime` on four bytes stays in bounds. -/
theorem sbox_loop_ok (a : List Nat) (hlen : a.length = 4) (hlt : ∀ j, a.getD j 0 < 256) :
    (List.range 4).foldlM (fun a i => do
        let x ← readAt a i
        let s ← readAt SM4.SM4_SBOX x
        writeAt a i s) a
      = Except.ok ((List.range 4).foldl
          (fun a i => a.set i (SM4.SM4_SBOX.getD (a.getD i 0) 0)) a) ∧
    ((List.range 4).foldl (fun a i => a.set i (SM4.SM4_SBOX.getD (a.getD i 0) 0)) a).length = 4 := by
  have h := foldlM_ok
    (fun a i => do
        let x ← readAt a i
        let s ← readAt SM4.SM4_SBOX x
        writeAt a i s)
    (fun a i => a.set i (SM4.SM4_SBOX.getD (a.getD i 0) 0))
    (fun a => a.length = 4 ∧ ∀ j, a.getD j 0 < 256) (List.range 4)
    (by
      intro s i hi hs
      have hi4 : i < 4 := List.mem_range.mp hi
      obtain ⟨hl, hb⟩ := hs
      refine ⟨?_, by rw [List.length_set]; exact hl, fun j => ?_⟩
      · simp only []
        rw [readAt_ok s i (by omega), bind_ok_eq,
          readAt_ok SM4.SM4_SBOX _ (by rw [sbox_length]; exact hb i), bind_ok_eq,
          writeAt_ok s i _ (by omega)]
      · by_cases hji : i = j
        · subst hji
          rw [getD_set_self_lt _ _ _ (by omega)]
          exact sbox_getD_lt _
        · rw [getD_set_of_ne _ _ _ _ hji]
          exact hb j)
    a ⟨hlen, hlt⟩
  exact ⟨h.1, h.2.1⟩

theorem bytes_getD_lt (A j : Nat) :
    ([(A >>> 24) % 2 ^ 8, (A >>> 16) % 2 ^ 8, (A >>> 8) % 2 ^ 8, A % 2 ^ 8] : List Nat).getD j 0
      < 256 := by
  have h0 : (A >>> 24) % 2 ^ 8 < 256 := Nat.mod_lt _ (by norm_num)
  have h1 : (A >>> 16) % 2 ^ 8 < 256 := Nat.mod_lt _ (by norm_num)
  have h2 : (A >>> 8) % 2 ^ 8 < 256 := Nat.mod_lt _ (by norm_num)
  have h3 : A % 2 ^ 8 < 256 := Nat.mod_lt _ (by norm_num)
  match j with
  | 0 => exact h0
  | 1 => exact h1
  | 2 => exact h2
  | 3 => exact h3
  | _ + 4 => exact (by decide : (0 : Nat) < 256)

/-- Every array access of `T` is in bounds: the checked function returns the value of `T`. -/
theorem T_checked_ok (A : Nat) : SM4.Checked.T A = Except.ok (SM4.T A) := by
  obtain ⟨hok, hlen⟩ := sbox_loop_ok
    [(A >>> 24) % 2 ^ 8, (A >>> 16) % 2 ^ 8, (A >>> 8) % 2 ^ 8, A % 2 ^ 8] rfl (bytes_getD_lt A)
  unfold SM4.Checked.T
  simp only []
  rw [hok, bind_ok_eq, readAt_ok _ 0 (by omega), bind_ok_eq, readAt_ok _ 1 (by omega), bind_ok_eq,
    readAt_ok _ 2 (by omega), bind_ok_eq, readAt_ok _ 3 (by omega), bind_ok_eq]
  rfl

/-- Every array access of `T_prime` is in bounds. -/
theorem T_prime_checked_ok (A : Nat) : SM4.Checked.T_prime A = Except.ok (SM4.T_prime A) := by
  obtain ⟨hok, hlen⟩ := sbox_loop_ok
    [(A >>> 24) % 2 ^ 8, (A >>> 16) % 2 ^ 8, (A >>> 8) % 2 ^ 8, A % 2 ^ 8] rfl (bytes_getD_lt A)
  unfold SM4.Checked.T_prime
  simp only []
  rw [hok, bind_ok_eq, readAt_ok _ 0 (by omega), bind_ok_eq, readAt_ok _ 1 (by omega), bind_ok_eq,
    readAt_ok _ 2 (by omega), bind_ok_eq, readAt_ok _ 3 (by omega), bind_ok_eq]
  rfl

theorem memcpyChecked_ok (dst src : List Nat) (n : Nat) (hs : n ≤ src.length)
    (hd : n ≤ dst.length) : memcpyChecked dst src n = Except.ok (memcpy dst src n) := by
  simp [memcpyChecked, hs, hd]

theorem memcpyChecked_error (dst src : List Nat) (n : Nat) (hs : src.length < n) :
    memcpyChecked dst src n = Except.error Fault.OutOfBounds := by
  simp [memcpyChecked, Nat.not_le.mpr hs]

theorem memcpy_length (dst src : List Nat) (n : Nat) (hs : n ≤ src.length) (hd : n ≤ dst.length) :
    (memcpy dst src n).length = dst.length := by
  simp [memcpy]
  omega

/-- With at least 4 block words and at least 32 round keys, and a transform that stays in
bounds, every array access of the round engine is in bounds. -/
theorem roundEngineChecked_ok (Tfc : Nat → Except Fault Nat) (Tf : Nat → Nat)
    (hT : ∀ x, Tfc x = Except.ok (Tf x)) (block rk : List Nat) (enc : Bool)
    (hb : 4 ≤ block.length) (hrk : 32 ≤ rk.length) :
    roundEngineChecked Tfc block rk enc = Except.ok (roundEngine Tf block rk enc) := by
  have hX0 : (memcpy (List.replicate 36 0) block 4).length = 36 := by
    rw [memcpy_length _ _ _ hb (by simp)]
    simp
  obtain ⟨hloop, hlen⟩ := foldlM_ok
    (fun X i => do
      let r := if enc then i else 31 - i
      let x0 ← readAt X i
      let x1 ← readAt X (i + 1)
      let x2 ← readAt X (i + 2)
      let x3 ← readAt X (i + 3)
      let k ← readAt rk r
      let t ← Tfc (x1 ^^^ x2 ^^^ x3 ^^^ k)
      writeAt X (i + 4) (x0 ^^^ t))
    (fun X i =>
      let r := if enc then i else 31 - i
      X.set (i + 4)
        (X.getD i 0 ^^^ Tf (X.getD (i + 1) 0 ^^^ X.getD (i + 2) 0 ^^^ X.getD (i + 3) 0 ^^^ rk.getD r 0)))
    (fun X => X.length = 36) (List.range 32)
    (by
      intro X i hi hX
      have hi32 : i < 32 := List.mem_range.mp hi
      have hr : (if enc = true then i else 31 - i) < rk.length := by
        split <;> omega
      refine ⟨?_, by simp only []; rw [List.length_set]; exact hX⟩
      simp only []
      rw [readAt_ok X i (by omega), bind_ok_eq, readAt_ok X (i + 1) (by omega), bind_ok_eq,
        readAt_ok X (i + 2) (by omega), bind_ok_eq, readAt_ok X (i + 3) (by omega), bind_ok_eq,
        readAt_ok rk _ hr, bind_ok_eq, hT, bind_ok_eq, writeAt_ok X (i + 4) _ (by omega)])
    (memcpy (List.replicate 36 0) block 4) hX0
  obtain ⟨hout, _⟩ := foldlM_ok
    (fun b i => do
      let x ← readAt ((List.range 32).foldl (fun X i =>
        let r := if enc then i else 31 - i
        X.set (i + 4)
          (X.getD i 0 ^^^ Tf (X.getD (i + 1) 0 ^^^ X.getD (i + 2) 0 ^^^ X.getD (i + 3) 0 ^^^ rk.getD r 0)))
        (memcpy (List.replicate 36 0) block 4)) (35 - i)
      writeAt b i x)
    (fun b i => b.set i (((List.range 32).foldl (fun X i =>
        let r := if enc then i else 31 - i
        X.set (i + 4)
          (X.getD i 0 ^^^ Tf (X.getD (i + 1) 0 ^^^ X.getD (i + 2) 0 ^^^ X.getD (i + 3) 0 ^^^ rk.getD r 0)))
        (memcpy (List.replicate 36 0) block 4)).getD (35 - i) 0))
    (fun b => 4 ≤ b.length) (List.range 4)
    (by
      intro b i hi hbl
      have hi4 : i < 4 := List.mem_range.mp hi
      refine ⟨?_, by simp only []; rw [List.length_set]; exact hbl⟩
      simp only []
      rw [readAt_ok _ (35 - i) (by rw [hlen]; omega), bind_ok_eq, writeAt_ok b i _ (by omega)])
    block hb
  unfold roundEngineChecked roundEngine
  simp only []
  rw [memcpyChecked_ok _ _ _ hb (by simp), bind_ok_eq, hloop, bind_ok_eq]
  exact hout

/-- With at least 4 key words every array access of `key_schedule` is in bounds. -/
theorem key_schedule_checked_ok (key : List Nat) (hk : 4 ≤ key.length) :
    SM4.Checked.key_schedule key = Except.ok (SM4.key_schedule key) := by
  obtain ⟨hinit, hlen0⟩ := foldlM_ok
    (fun K i => do
      let k ← readAt key i
      let f ← readAt SM4.FK i
      writeAt K i (k ^^^ f))
    (fun K i => K.set i (key.getD i 0 ^^^ SM4.FK.getD i 0))
    (fun K => K.length = 36) (List.range 4)
    (by
      intro K i hi hK
      have hi4 : i < 4 := List.mem_range.mp hi
      refine ⟨?_, by simp only []; rw [List.length_set]; exact hK⟩
      simp only []
      rw [readAt_ok key i (by omega), bind_ok_eq, readAt_ok SM4.FK i hi4, bind_ok_eq,
        writeAt_ok K i _ (by omega)])
    (List.replicate 36 0) (List.length_replicate _ _)
  obtain ⟨hloop, hlen⟩ := foldlM_ok
    (fun K i => do
      let k0 ← readAt K i
      let k1 ← readAt K (i + 1)
      let k2 ← readAt K (i + 2)
      let k3 ← readAt K (i + 3)
      let c ← readAt SM4.CK i
      let t ← SM4.Checked.T_prime (k1 ^^^ k2 ^^^ k3 ^^^ c)
      writeAt K (i + 4) (k0 ^^^ t))
    (fun K i => K.set (i + 4)
      (K.getD i 0 ^^^ SM4.T_prime
        (K.getD (i + 1) 0 ^^^ K.getD (i + 2) 0 ^^^ K.getD (i + 3) 0 ^^^ SM4.CK.getD i 0)))
    (fun K => K.length = 36) (List.range 32)
    (by
      intro K i hi hK
      have hi32 : i < 32 := List.mem_range.mp hi
      refine ⟨?_, by simp only []; rw [List.length_set]; exact hK⟩
      simp only []
      rw [readAt_ok K i (by omega), bind_ok_eq, readAt_ok K (i + 1) (by omega), bind_ok_eq,
        readAt_ok K (i + 2) (by omega), bind_ok_eq, readAt_ok K (i + 3) (by omega), bind_ok_eq,
        readAt_ok SM4.CK i hi32, bind_ok_eq, T_prime_checked_ok, bind_ok_eq,
        writeAt_ok K (i + 4) _ (by omega)])
    ((List.range 4).foldl (fun K i => K.set i (key.getD i 0 ^^^ SM4.FK.getD i 0))
      (List.replicate 36 0)) hlen0
  unfold SM4.Checked.key_schedule SM4.key_schedule
  simp only []
  rw [hinit, bind_ok_eq, hloop, bind_ok_eq]
  exact memcpyChecked_ok _ _ _ (by rw [List.length_drop, hlen]) (by simp)

/-- A checked loop fails as soon as one step fails after steps that succeed. -/
theorem foldlM_error {σ : Type} (stepC : σ → Nat → Except Fault σ) (step : σ → Nat → σ)
    (P : σ → Prop) (l1 l2 : List Nat) (i : Nat) (e : Fault)
    (hstep : ∀ s j, j ∈ l1 → P s → stepC s j = Except.ok (step s j) ∧ P (step s j))
    (hfail : ∀ s, P s → stepC s i = Except.error e) (s0 : σ) (h0 : P s0) :
    (l1 ++ i :: l2).foldlM stepC s0 = Except.error e := by
  induction l1 generalizing s0 with
  | nil => rw [List.nil_append, List.foldlM_cons, hfail s0 h0, bind_error_eq]
  | cons j l ih =>
    obtain ⟨hs, hP⟩ := hstep s0 j (List.mem_cons_self j l) h0
    rw [List.cons_append, List.foldlM_cons, hs, bind_ok_eq]
    exact ih (fun s k hk hs' => hstep s k (List.mem_cons_of_mem j hk) hs') _ hP

theorem range_split (n m : Nat) (h : n < m) :
    ∃ l2, List.range m = List.range n ++ n :: l2 := by
  refine ⟨(List.range (m - (n + 1))).map (fun k => n + 1 + k), ?_⟩
  have e : m = (n + 1) + (m - (n + 1)) := by omega
  conv_lhs => rw [e, List.range_add, List.range_succ]
  simp

/-- With fewer than 4 key words `key_schedule` reads outside the key. -/
theorem key_schedule_checked_short (key : List Nat) (hk : key.length < 4) :
    SM4.Checked.key_schedule key = Except.error Fault.OutOfBounds := by
  obtain ⟨l2, hl2⟩ := range_split key.length 4 hk
  have hfail := foldlM_error
    (fun K i => do
      let k ← readAt key i
      let f ← readAt SM4.FK i
      writeAt K i (k ^^^ f))
    (fun K i => K.set i (key.getD i 0 ^^^ SM4.FK.getD i 0))
    (fun K => K.length = 36) (List.range key.length) l2 key.length Fault.OutOfBounds
    (by
      intro K i hi hK
      have hi4 : i < key.length := List.mem_range.mp hi
      have hf : i < SM4.FK.length := by
        have : SM4.FK.length = 4 := rfl
        omega
      refine ⟨?_, by simp only []; rw [List.length_set]; exact hK⟩
      simp only []
      rw [readAt_ok key i hi4, bind_ok_eq, readAt_ok SM4.FK i hf, bind_ok_eq,
        writeAt_ok K i _ (by omega)])
    (by
      intro K _
      simp only []
      rw [readAt_error key key.length (le_refl _), bind_error_eq])
    (List.replicate 36 0) (List.length_replicate _ _)
  unfold SM4.Checked.key_schedule
  simp only []
  rw [hl2, hfail, bind_error_eq]

/-- With fewer than 4 block words or fewer than 32 round keys the round engine reads outside the
supplied data. -/
theorem roundEngineChecked_short (Tfc : Nat → Except Fault Nat) (Tf : Nat → Nat)
    (hT : ∀ x, Tfc x = Except.ok (Tf x)) (block rk : List Nat) (enc : Bool)
    (h : block.length < 4 ∨ rk.length < 32) :
    roundEngineChecked Tfc block rk enc = Except.error Fault.OutOfBounds := by
  unfold roundEngineChecked
  simp only []
  by_cases hb : block.length < 4
  · rw [memcpyChecked_error _ _ _ hb, bind_error_eq]
  · have hb4 : 4 ≤ block.length := by omega
    have hrk : rk.length < 32 := by omega
    have hX0 : (memcpy (List.replicate 36 0) block 4).length = 36 := by
      rw [memcpy_length _ _ _ hb4 (by simp)]
      simp
    have hn : (if enc = true then rk.length else 0) < 32 := by split <;> omega
    obtain ⟨l2, hl2⟩ := range_split (if enc = true then rk.length else 0) 32 hn
    have hfail := foldlM_error
      (fun X i => do
        let r := if enc then i else 31 - i
        let x0 ← readAt X i
        let x1 ← readAt X (i + 1)
        let x2 ← readAt X (i + 2)
        let x3 ← readAt X (i + 3)
        let k ← readAt rk r
        let t ← Tfc (x1 ^^^ x2 ^^^ x3 ^^^ k)
        writeAt X (i + 4) (x0 ^^^ t))
      (fun X i =>
        let r := if enc then i else 31 - i
        X.set (i + 4)
          (X.getD i 0 ^^^ Tf (X.getD (i + 1) 0 ^^^ X.getD (i + 2) 0 ^^^ X.getD (i + 3) 0 ^^^ rk.getD r 0)))
      (fun X => X.length = 36) (List.range (if enc = true then rk.length else 0)) l2
      (if enc = true then rk.length else 0) Fault.OutOfBounds
      (by
        intro X i hi hX
        have hi' : i < (if enc = true then rk.length else 0) := List.mem_range.mp hi
        have he : enc = true := by
          cases enc
          · simp at hi'
          · rfl
        subst he
        have hi2 : i < rk.length := by simpa using hi'
        refine ⟨?_, by simp only []; rw [List.length_set]; exact hX⟩
        simp only [if_true]
        rw [readAt_ok X i (by omega), bind_ok_eq, readAt_ok X (i + 1) (by omega), bind_ok_eq,
          readAt_ok X (i + 2) (by omega), bind_ok_eq, readAt_ok X (i + 3) (by omega), bind_ok_eq,
          readAt_ok rk _ hi2, bind_ok_eq, hT, bind_ok_eq, writeAt_ok X (i + 4) _ (by omega)])
      (by
        intro X hX
        have hr : rk.length ≤
            (if enc = true then (if enc = true then rk.length else 0)
              else 31 - (if enc = true then rk.length else 0)) := by
          cases enc
          · simp; omega
          · simp
        simp only []
        rw [readAt_ok X _ (by omega), bind_ok_eq, readAt_ok X _ (by omega), bind_ok_eq,
          readAt_ok X _ (by omega), bind_ok_eq, readAt_ok X _ (by omega), bind_ok_eq,
          readAt_error rk _ hr, bind_error_eq])
      (memcpy (List.replicate 36 0) block 4) hX0
    rw [memcpyChecked_ok _ _ _ hb4 (by simp), bind_ok_eq, hl2, hfail, bind_error_eq]

theorem getD_take (l : List Nat) (n i : Nat) (h : i < n) : (l.take n).getD i 0 = l.getD i 0 := by
  simp [List.getD_eq_getElem?_getD, List.getElem?_take, h]

/-- Only the first four words of the key are used. -/
theorem key_schedule_take (key : List Nat) :
    SM4.key_schedule key = SM4.key_schedule (key.take 4) := by
  unfold SM4.key_schedule
  simp only []
  rw [key_init_eq, key_init_eq, getD_take key 4 0 (by omega), getD_take key 4 1 (by omega),
    getD_take key 4 2 (by omega), getD_take key 4 3 (by omega)]

/-- Only the first four words of the block and the first 32 round keys are used, and words of the
block past the fourth are left as they are. -/
theorem roundEngine_take (Tf : Nat → Nat) (block rk : List Nat) (enc : Bool)
    (hb : 4 ≤ block.length) :
    roundEngine Tf block rk enc
      = roundEngine Tf (block.take 4) (rk.take 32) enc ++ block.drop 4 := by
  match block, hb with
  | a :: b :: c :: d :: rest, _ =>
    have hfold : ∀ X0 : List Nat,
        (List.range 32).foldl (fun X i =>
          let r := if enc then i else 31 - i
          X.set (i + 4)
            (X.getD i 0 ^^^ Tf (X.getD (i + 1) 0 ^^^ X.getD (i + 2) 0 ^^^ X.getD (i + 3) 0 ^^^ rk.getD r 0))) X0
        = (List.range 32).foldl (fun X i =>
          let r := if enc then i else 31 - i
          X.set (i + 4)
            (X.getD i 0 ^^^ Tf (X.getD (i + 1) 0 ^^^ X.getD (i + 2) 0 ^^^ X.getD (i + 3) 0
              ^^^ (rk.take 32).getD r 0))) X0 := by
      intro X0
      apply List.foldl_ext
      intro X i hi
      have hi' : i < 32 := List.mem_range.mp hi
      have hr : (if enc = true then i else 31 - i) < 32 := by split <;> omega
      simp only []
      rw [getD_take rk 32 _ hr]
    unfold roundEngine
    simp only []
    rw [hfold]
    rfl

/-- The table lookup with tables of 256 words stays in bounds. -/
theorem tTransformLookup_checked_ok (tb : TTable.TBoxes) (h : tablesSized tb) (value : Nat) :
    TTable.Checked.tTransformLookup tb value = Except.ok (TTable.tTransformLookup tb value) := by
  obtain ⟨h0, h1, h2, h3⟩ := h
  unfold TTable.Checked.tTransformLookup TTable.tTransformLookup
  rw [readAt_ok _ _ (by rw [h0]; exact and_0xFF_lt _), bind_ok_eq,
    readAt_ok _ _ (by rw [h1]; exact and_0xFF_lt _), bind_ok_eq,
    readAt_ok _ _ (by rw [h2]; exact and_0xFF_lt _), bind_ok_eq,
    readAt_ok _ _ (by rw [h3]; exact and_0xFF_lt _), bind_ok_eq]
  rfl

/-! ## Further properties of the round engine and of the constants -/

/-- Every entry of the zero-initialised tables reads as zero, so the lookup returns zero. -/
theorem tTransformLookup_zero (value : Nat) :
    TTable.tTransformLookup TTable.TBoxes.zero value = 0 := by
  have hz : ∀ n i : Nat, (List.replicate n (0 : Nat)).getD i 0 = 0 := by
    intro n i
    by_cases hi : i < (List.replicate n (0 : Nat)).length
    · rw [List.getD_eq_getElem _ _ hi, List.getElem_replicate]
    · rw [List.getD_eq_default _ _ (by omega)]
  simp only [TTable.tTransformLookup, TTable.TBoxes.zero, hz, Nat.xor_self]

/-- With a round function that is constantly zero the feedback sequence has period four. -/
theorem feedbackSeq_zero (F : Nat → Nat → Nat) (hF : ∀ i x, F i x = 0) (init : List Nat) (n : Nat) :
    feedbackSeq F init (n + 4) = feedbackSeq F init n := by
  rw [feedbackSeq_add_four, hF, Nat.xor_zero]

/-- C16: encryption is a bijection on blocks.  For every round-key array `rk` and every 4-word
block `C`, encrypting the decryption of `C` gives `C` back and decrypting the encryption of `C`
gives `C` back: the two directions of `sm4_crypt` are mutually inverse. -/
theorem sm4_crypt_mutually_inverse (rk C : List Nat) (hC : C.length = 4) :
    SM4.sm4_crypt (SM4.sm4_crypt C rk false) rk true = C ∧
    SM4.sm4_crypt (SM4.sm4_crypt C rk true) rk false = C := by
  simp only [sm4_crypt_eq_roundEngine]
  exact ⟨roundEngine_roundtrip SM4.T C rk false hC, roundEngine_roundtrip SM4.T C rk true hC⟩

theorem sm4_crypt_mutually_inverse_witness :
    [0x681edf34, 0xd206965e, 0x86b3e94f, 0x536e4246].length = 4 ∧
    (SM4.sm4_crypt (SM4.sm4_crypt [0x681edf34, 0xd206965e, 0x86b3e94f, 0x536e4246]
        (List.replicate 32 0x5a5a5a5a) false) (List.replicate 32 0x5a5a5a5a) true
      = [0x681edf34, 0xd206965e, 0x86b3e94f, 0x536e4246] ∧
    SM4.sm4_crypt (SM4.sm4_crypt [0x681edf34, 0xd206965e, 0x86b3e94f, 0x536e4246]
        (List.replicate 32 0x5a5a5a5a) true) (List.replicate 32 0x5a5a5a5a) false
      = [0x681edf34, 0xd206965e, 0x86b3e94f, 0x536e4246]) :=
  ⟨rfl, sm4_crypt_mutually_inverse (List.replicate 32 0x5a5a5a5a)
    [0x681edf34, 0xd206965e, 0x86b3e94f, 0x536e4246] rfl⟩

/-- C17: the round constants follow the generating rule of the standard.  For every `i` in
`0..31` and `j` in `0..3`, byte `j` (most significant first) of `CK[i]` is `(7 * (4 * i + j)) mod
256`; the table has 32 entries and equals the table `SM4_CK` of `ttable.cpp`. -/
theorem CK_generating_rule :
    SM4.CK.length = 32 ∧
    (∀ i, i < 32 → ∀ j, j < 4 →
      (SM4.CK.getD i 0 / 2 ^ (8 * (3 - j))) % 256 = (7 * (4 * i + j)) % 256) ∧
    SM4.CK = TTable.SM4_CK := by
  refine ⟨rfl, ?_, rfl⟩
  decide

/-- C19: behaviour with uninitialised tables.  When the four tables hold zero in every entry, for
every block `(x0, x1, x2, x3)`, every round-key array and both directions, `sm4Cipher` returns
`(x3, x2, x1, x0)`. -/
theorem sm4Cipher_zero_tables_reverses (x0 x1 x2 x3 : Nat) (rk : List Nat) (isEncrypt : Bool) :
    TTable.sm4Cipher TTable.TBoxes.zero [x0, x1, x2, x3] rk isEncrypt = [x3, x2, x1, x0] := by
  rw [sm4Cipher_eq_roundEngine, roundEngine_eq _ [x0, x1, x2, x3] _ _ rfl]
  have hF : ∀ i x, roundFn (TTable.tTransformLookup TTable.TBoxes.zero) rk isEncrypt i x = 0 :=
    fun i x => tTransformLookup_zero _
  have h4 : ∀ n, feedbackSeq (roundFn (TTable.tTransformLookup TTable.TBoxes.zero) rk isEncrypt)
      [x0, x1, x2, x3] (n + 32)
      = feedbackSeq (roundFn (TTable.tTransformLookup TTable.TBoxes.zero) rk isEncrypt)
      [x0, x1, x2, x3] n := by
    intro n
    rw [show n + 32 = n + 28 + 4 from rfl, feedbackSeq_zero _ hF,
      show n + 28 = n + 24 + 4 from rfl, feedbackSeq_zero _ hF,
      show n + 24 = n + 20 + 4 from rfl, feedbackSeq_zero _ hF,
      show n + 20 = n + 16 + 4 from rfl, feedbackSeq_zero _ hF,
      show n + 16 = n + 12 + 4 from rfl, feedbackSeq_zero _ hF,
      show n + 12 = n + 8 + 4 from rfl, feedbackSeq_zero _ hF,
      show n + 8 = n + 4 + 4 from rfl, feedbackSeq_zero _ hF, feedbackSeq_zero _ hF]
  rw [show (35 : Nat) = 3 + 32 from rfl, show (34 : Nat) = 2 + 32 from rfl,
    show (33 : Nat) = 1 + 32 from rfl, show (32 : Nat) = 0 + 32 from rfl, h4, h4, h4, h4]
  rfl

/-- C11: table initialisation is idempotent.  For all tables of 256 words, running `initTBox`
twice leaves the same tables as running it once, and the tables after `initTBox` are the same
whatever content they started from. -/
theorem initTBox_idempotent (tb tb' : TTable.TBoxes) (h : tablesSized tb) (h' : tablesSized tb') :
    TTable.initTBox (TTable.initTBox tb) = TTable.initTBox tb ∧
    TTable.initTBox tb = TTable.initTBox tb' := by
  rw [initTBox_eq _ (initTBox_sized tb h), initTBox_eq tb h, initTBox_eq tb' h']
  exact ⟨rfl, rfl⟩

theorem initTBox_idempotent_witness :
    tablesSized TTable.TBoxes.zero ∧
    tablesSized ⟨List.replicate 256 0xffffffff, List.replicate 256 1, List.replicate 256 2,
      List.replicate 256 3⟩ ∧
    TTable.initTBox (TTable.initTBox TTable.TBoxes.zero) = TTable.initTBox TTable.TBoxes.zero ∧
    TTable.initTBox TTable.TBoxes.zero
      = TTable.initTBox ⟨List.replicate 256 0xffffffff, List.replicate 256 1,
          List.replicate 256 2, List.replicate 256 3⟩ :=
  ⟨zero_lengths,
    ⟨List.length_replicate _ _, List.length_replicate _ _, List.length_replicate _ _,
      List.length_replicate _ _⟩,
    initTBox_idempotent TTable.TBoxes.zero
      ⟨List.replicate 256 0xffffffff, List.replicate 256 1, List.replicate 256 2,
        List.replicate 256 3⟩ zero_lengths
      ⟨List.length_replicate _ _, List.length_replicate _ _, List.length_replicate _ _,
        List.length_replicate _ _⟩⟩

/-- C14: table contents after `initTBox`.  Whatever tables of 256 words it started from, for every
byte value `b` in `0..255`, `TBox0[b] = L(SM4_SBOX[b] << 24)` with `L` the linear diffusion of the
specification, `TBox1[b] = rotl(TBox0[b], 8)`, `TBox2[b] = rotl(TBox0[b], 16)` and
`TBox3[b] = rotl(TBox0[b], 24)`, with `rotl` the circular rotation of 32-bit words. -/
theorem initTBox_contents (tb : TTable.TBoxes) (h : tablesSized tb) (b : Nat) (hb : b < 256) :
    (TTable.initTBox tb).TBox0.getD b 0 = specL (TTable.SM4_SBOX.getD b 0 * 2 ^ 24) ∧
    (TTable.initTBox tb).TBox1.getD b 0 = specRotl ((TTable.initTBox tb).TBox0.getD b 0) 8 ∧
    (TTable.initTBox tb).TBox2.getD b 0 = specRotl ((TTable.initTBox tb).TBox0.getD b 0) 16 ∧
    (TTable.initTBox tb).TBox3.getD b 0 = specRotl ((TTable.initTBox tb).TBox0.getD b 0) 24 := by
  obtain ⟨h0, h1, h2, h3⟩ := (foldl_initTBoxStep tb h 256 (le_refl 256)).2 b hb
  have e0 : (TTable.initTBox tb).TBox0.getD b 0 = tboxBase b := h0
  have e1 : (TTable.initTBox tb).TBox1.getD b 0 = TTable.rotateLeft (tboxBase b) 8 := h1
  have e2 : (TTable.initTBox tb).TBox2.getD b 0 = TTable.rotateLeft (tboxBase b) 16 := h2
  have e3 : (TTable.initTBox tb).TBox3.getD b 0 = TTable.rotateLeft (tboxBase b) 24 := h3
  rw [e0, e1, e2, e3]
  simp only [rotateLeft_eq_rotl]
  rw [rotl_eq_specRotl _ 8 (tboxBase_lt b) (by omega), rotl_eq_specRotl _ 16 (tboxBase_lt b) (by omega),
    rotl_eq_specRotl _ 24 (tboxBase_lt b) (by omega)]
  exact ⟨tboxBase_eq_specL b, rfl, rfl, rfl⟩

theorem initTBox_contents_witness :
    tablesSized TTable.TBoxes.zero ∧ 0x2a < 256 ∧
    (TTable.initTBox TTable.TBoxes.zero).TBox0.getD 0x2a 0
      = specL (TTable.SM4_SBOX.getD 0x2a 0 * 2 ^ 24) ∧
    (TTable.initTBox TTable.TBoxes.zero).TBox1.getD 0x2a 0
      = specRotl ((TTable.initTBox TTable.TBoxes.zero).TBox0.getD 0x2a 0) 8 ∧
    (TTable.initTBox TTable.TBoxes.zero).TBox2.getD 0x2a 0
      = specRotl ((TTable.initTBox TTable.TBoxes.zero).TBox0.getD 0x2a 0) 16 ∧
    (TTable.initTBox TTable.TBoxes.zero).TBox3.getD 0x2a 0
      = specRotl ((TTable.initTBox TTable.TBoxes.zero).TBox0.getD 0x2a 0) 24 :=
  ⟨zero_lengths, by decide, initTBox_contents TTable.TBoxes.zero zero_lengths 0x2a (by decide)⟩

/-! ## Error reporting and index safety -/

/-- C12 as stated fails: called on the zero-initialised tables, before `initTBox` has run,
`tTransformLookup` returns the word `0` and `sm4Cipher` returns a block; neither reports
`NotInitialized`. -/
theorem use_before_init_not_reported :
    TTable.Checked.tTransformLookup TTable.TBoxes.zero 0x01234567 = Except.ok 0 ∧
    TTable.Checked.tTransformLookup TTable.TBoxes.zero 0x01234567
      ≠ Except.error Fault.NotInitialized ∧
    TTable.Checked.sm4Cipher TTable.TBoxes.zero
        [0x01234567, 0x89abcdef, 0xfedcba98, 0x76543210] (List.replicate 32 0) true
      = Except.ok [0x76543210, 0xfedcba98, 0x89abcdef, 0x01234567] ∧
    TTable.Checked.sm4Cipher TTable.TBoxes.zero
        [0x01234567, 0x89abcdef, 0xfedcba98, 0x76543210] (List.replicate 32 0) true
      ≠ Except.error Fault.NotInitialized := by
  have h1 : TTable.Checked.tTransformLookup TTable.TBoxes.zero 0x01234567 = Except.ok 0 := by
    rw [tTransformLookup_checked_ok _ zero_lengths, tTransformLookup_zero]
  have h2 : TTable.Checked.sm4Cipher TTable.TBoxes.zero
        [0x01234567, 0x89abcdef, 0xfedcba98, 0x76543210] (List.replicate 32 0) true
      = Except.ok [0x76543210, 0xfedcba98, 0x89abcdef, 0x01234567] := by
    rw [sm4Cipher_checked_eq_roundEngineChecked,
      roundEngineChecked_ok _ _ (tTransformLookup_checked_ok _ zero_lengths) _ _ _
        (by decide) (by rw [List.length_replicate]),
      ← sm4Cipher_eq_roundEngine]
    exact congrArg Except.ok (by decide)
  refine ⟨h1, ?_, h2, ?_⟩
  · rw [h1]
    exact fun h => Except.noConfusion h
  · rw [h2]
    exact fun h => Except.noConfusion h

/-- C12, amended: use before initialisation is not reported.  Called on the zero-initialised
tables, `tTransformLookup` returns the word `0` for every input word, and `sm4Cipher` returns an
output block for every 4-word block, every 32-word round-key array and both directions; no error
is produced. -/
theorem use_before_init_returns_output (value : Nat) (block rk : List Nat) (isEncrypt : Bool)
    (hb : block.length = 4) (hrk : rk.length = 32) :
    TTable.Checked.tTransformLookup TTable.TBoxes.zero value = Except.ok 0 ∧
    TTable.Checked.sm4Cipher TTable.TBoxes.zero block rk isEncrypt
      = Except.ok (TTable.sm4Cipher TTable.TBoxes.zero block rk isEncrypt) := by
  constructor
  · rw [tTransformLookup_checked_ok _ zero_lengths, tTransformLookup_zero]
  · rw [sm4Cipher_checked_eq_roundEngineChecked,
      roundEngineChecked_ok _ _ (tTransformLookup_checked_ok _ zero_lengths) _ _ _
        (by omega) (by omega),
      ← sm4Cipher_eq_roundEngine]

theorem use_before_init_returns_output_witness :
    [0x01234567, 0x89abcdef, 0xfedcba98, 0x76543210].length = 4 ∧
    (List.replicate 32 0x00112233).length = 32 ∧
    TTable.Checked.tTransformLookup TTable.TBoxes.zero 0xdeadbeef = Except.ok 0 ∧
    TTable.Checked.sm4Cipher TTable.TBoxes.zero [0x01234567, 0x89abcdef, 0xfedcba98, 0x76543210]
        (List.replicate 32 0x00112233) false
      = Except.ok (TTable.sm4Cipher TTable.TBoxes.zero
          [0x01234567, 0x89abcdef, 0xfedcba98, 0x76543210] (List.replicate 32 0x00112233) false) :=
  ⟨rfl, List.length_replicate _ _,
    use_before_init_returns_output 0xdeadbeef [0x01234567, 0x89abcdef, 0xfedcba98, 0x76543210]
      (List.replicate 32 0x00112233) false rfl (List.length_replicate _ _)⟩

/-- C13 as stated fails: given a key of 5 words `key_schedule` computes the round keys of the
first four words, and given a key of 3 words it reads outside the key; given a block of 5 words
`sm4_crypt` computes a result; none of the calls reports `InvalidLength`. -/
theorem invalid_sizes_not_rejected :
    SM4.Checked.key_schedule [0x01234567, 0x89abcdef, 0xfedcba98, 0x76543210, 0xffffffff]
      = Except.ok (SM4.key_schedule [0x01234567, 0x89abcdef, 0xfedcba98, 0x76543210]) ∧
    SM4.Checked.key_schedule [0x01234567, 0x89abcdef, 0xfedcba98, 0x76543210, 0xffffffff]
      ≠ Except.error Fault.InvalidLength ∧
    SM4.Checked.key_schedule [0x01234567, 0x89abcdef, 0xfedcba98]
      = Except.error Fault.OutOfBounds ∧
    SM4.Checked.sm4_crypt [0x01234567, 0x89abcdef, 0xfedcba98, 0x76543210, 0xffffffff]
        (SM4.key_schedule [0x01234567, 0x89abcdef, 0xfedcba98, 0x76543210]) true
      = Except.ok [0x681edf34, 0xd206965e, 0x86b3e94f, 0x536e4246, 0xffffffff] := by
  have h1 : SM4.Checked.key_schedule
      [0x01234567, 0x89abcdef, 0xfedcba98, 0x76543210, 0xffffffff]
      = Except.ok (SM4.key_schedule [0x01234567, 0x89abcdef, 0xfedcba98, 0x76543210]) := by
    rw [key_schedule_checked_ok _ (by decide), key_schedule_take]
    rfl
  refine ⟨h1, ?_, key_schedule_checked_short _ (by decide), ?_⟩
  · rw [h1]
    exact fun h => Except.noConfusion h
  · rw [sm4_crypt_checked_eq_roundEngineChecked,
      roundEngineChecked_ok _ _ T_checked_ok _ _ _ (by decide)
        (by rw [key_schedule_eq_specK]; simp),
      ← sm4_crypt_eq_roundEngine]
    exact congrArg Except.ok (by decide)

/-- C13, amended: sizes are not checked and `InvalidLength` is never reported.  `key_schedule`
given at least 4 words returns the round keys of the first 4 words, and given fewer than 4 words
it reads outside the key.  `sm4_crypt` given at least 4 block words and at least 32 round keys
returns the result for the first 4 block words and the first 32 round keys, followed by the
remaining block words unchanged, and given fewer block words or fewer round keys it reads outside
the supplied data. -/
theorem sizes_not_checked (key block rk : List Nat) (enc : Bool) :
    (4 ≤ key.length →
      SM4.Checked.key_schedule key = Except.ok (SM4.key_schedule (key.take 4))) ∧
    (key.length < 4 → SM4.Checked.key_schedule key = Except.error Fault.OutOfBounds) ∧
    (4 ≤ block.length → 32 ≤ rk.length →
      SM4.Checked.sm4_crypt block rk enc
        = Except.ok (SM4.sm4_crypt (block.take 4) (rk.take 32) enc ++ block.drop 4)) ∧
    (block.length < 4 ∨ rk.length < 32 →
      SM4.Checked.sm4_crypt block rk enc = Except.error Fault.OutOfBounds) := by
  refine ⟨fun hk => ?_, fun hk => key_schedule_checked_short key hk, fun hb hrk => ?_, fun h => ?_⟩
  · rw [key_schedule_checked_ok key hk, key_schedule_take]
  · rw [sm4_crypt_checked_eq_roundEngineChecked, roundEngineChecked_ok _ _ T_checked_ok _ _ _ hb hrk,
      roundEngine_take _ _ _ _ hb, ← sm4_crypt_eq_roundEngine]
  · rw [sm4_crypt_checked_eq_roundEngineChecked]
    exact roundEngineChecked_short _ _ T_checked_ok _ _ _ h

theorem sizes_not_checked_witness :
    (4 ≤ [0x01234567, 0x89abcdef, 0xfedcba98, 0x76543210, 0xffffffff].length ∧
      SM4.Checked.key_schedule [0x01234567, 0x89abcdef, 0xfedcba98, 0x76543210, 0xffffffff]
        = Except.ok (SM4.key_schedule
            ([0x01234567, 0x89abcdef, 0xfedcba98, 0x76543210, 0xffffffff].take 4))) ∧
    ((List.replicate 3 0x01234567).length < 4 ∨ (List.replicate 31 0).length < 32) ∧
    SM4.Checked.sm4_crypt (List.replicate 3 0x01234567) (List.replicate 31 0) false
      = Except.error Fault.OutOfBounds :=
  ⟨⟨by decide,
      (sizes_not_checked [0x01234567, 0x89abcdef, 0xfedcba98, 0x76543210, 0xffffffff] [] []
        true).1 (by decide)⟩,
    Or.inl (by decide),
    (sizes_not_checked [] (List.replicate 3 0x01234567) (List.replicate 31 0) false).2.2.2
      (Or.inl (by decide))⟩

/-- C15: what the table lookup computes.  Whatever tables of 256 words `initTBox` started from,
for every word `v` with bytes `(b0, b1, b2, b3)`, most significant first, `tTransformLookup v` is
the direct transform `T` of the word with bytes `(b0, b3, b2, b1)`. -/
theorem tTransformLookup_eq_T_swapped (tb : TTable.TBoxes) (h : tablesSized tb) (value : Nat) :
    TTable.tTransformLookup (TTable.initTBox tb) value = SM4.T (swapSecondAndLastByte value) := by
  rw [tTransformLookup_initTBox tb h, lookupWord_eq_T_swap]

theorem tTransformLookup_eq_T_swapped_witness :
    tablesSized TTable.TBoxes.zero ∧
    TTable.tTransformLookup (TTable.initTBox TTable.TBoxes.zero) 0x01234567
      = SM4.T (swapSecondAndLastByte 0x01234567) :=
  ⟨zero_lengths, tTransformLookup_eq_T_swapped TTable.TBoxes.zero zero_lengths 0x01234567⟩

/-- C18: index safety of the engine.  For every 4-word key, 4-word block, 32-word round-key array
and both directions, every array access of `T`, `T_prime`, `key_schedule` and `sm4_crypt` is in
bounds: the checked functions return the results of the unchecked ones.  In particular the
round-key index lies in `0..31` in every round and the output indices `35 - i` lie in `32..35`. -/
theorem engine_accesses_in_bounds (A : Nat) (key block rk : List Nat) (enc : Bool)
    (hk : key.length = 4) (hb : block.length = 4) (hrk : rk.length = 32) :
    SM4.Checked.T A = Except.ok (SM4.T A) ∧
    SM4.Checked.T_prime A = Except.ok (SM4.T_prime A) ∧
    SM4.Checked.key_schedule key = Except.ok (SM4.key_schedule key) ∧
    SM4.Checked.sm4_crypt block rk enc = Except.ok (SM4.sm4_crypt block rk enc) ∧
    (∀ i, i < 32 → (if enc then i else 31 - i) < 32) ∧
    (∀ i, i < 4 → 32 ≤ 35 - i ∧ 35 - i ≤ 35) := by
  refine ⟨T_checked_ok A, T_prime_checked_ok A, key_schedule_checked_ok key (by omega), ?_, ?_, ?_⟩
  · rw [sm4_crypt_checked_eq_roundEngineChecked,
      roundEngineChecked_ok _ _ T_checked_ok _ _ _ (by omega) (by omega),
      ← sm4_crypt_eq_roundEngine]
  · intro i hi
    split <;> omega
  · intro i hi
    omega

theorem engine_accesses_in_bounds_witness :
    [0x01234567, 0x89abcdef, 0xfedcba98, 0x76543210].length = 4 ∧
    [0x00112233, 0x44556677, 0x8899aabb, 0xccddeeff].length = 4 ∧
    (List.replicate 32 0x5a5a5a5a).length = 32 ∧
    SM4.Checked.T 0x01234567 = Except.ok (SM4.T 0x01234567) ∧
    SM4.Checked.T_prime 0x01234567 = Except.ok (SM4.T_prime 0x01234567) ∧
    SM4.Checked.key_schedule [0x01234567, 0x89abcdef, 0xfedcba98, 0x76543210]
      = Except.ok (SM4.key_schedule [0x01234567, 0x89abcdef, 0xfedcba98, 0x76543210]) ∧
    SM4.Checked.sm4_crypt [0x00112233, 0x44556677, 0x8899aabb, 0xccddeeff]
        (List.replicate 32 0x5a5a5a5a) false
      = Except.ok (SM4.sm4_crypt [0x00112233, 0x44556677, 0x8899aabb, 0xccddeeff]
          (List.replicate 32 0x5a5a5a5a) false) ∧
    (∀ i, i < 32 → (if false = true then i else 31 - i) < 32) ∧
    (∀ i, i < 4 → 32 ≤ 35 - i ∧ 35 - i ≤ 35) :=
  ⟨rfl, rfl, List.length_replicate _ _,
    engine_accesses_in_bounds 0x01234567 [0x01234567, 0x89abcdef, 0xfedcba98, 0x76543210]
      [0x00112233, 0x44556677, 0x8899aabb, 0xccddeeff] (List.replicate 32 0x5a5a5a5a) false
      rfl rfl (List.length_replicate _ _)⟩
